import Mathlib

set_option linter.unusedSectionVars false

/-!
Verification development for the OpenClaw usage dashboard's ingestion and
aggregation core (`app/log_parser.py`, `app/providers/*.py`, `app/scheduler.py`,
`app/database.py`).

Shallow-embedding conventions:

* A decoded JSON value is modelled by `Json α`, where the carrier `α` of
  numeric payloads is any `AddCommMonoid` with a distinguished `1`, a cast
  from `ℕ` and decidable equality: the source only ever adds numbers,
  compares them to zero, and treats Python `bool` as `0`/`1` (an `int`
  subclass under `isinstance(v, (int, float))`).  The faithful instances are
  `ℤ` for Python ints and `ℚ` as the idealisation of Python floats (no claim
  here depends on floating-point rounding of cost sums); concrete statements
  instantiate `α := ℤ`.
* One physical line of a session file is a `RawLine α`: it is `blank` when
  `line.strip()` is empty, `malformed` when `json.loads` raises
  `JSONDecodeError`, and `json j` when it decodes to `j`.  File discovery,
  environment variables and the wall clock are passed in as parameters.
* `datetime.fromisoformat(...).astimezone(utc)` (the `try` body of
  `_parse_date_hour`) is abstracted as a parameter
  `pdh : String → Option (String × Nat)` returning the derived
  `(YYYY-MM-DD, hour)` pair, `none` when parsing raises; the `except` branch
  falls back to the supplied `now`.  Concrete statements use `isoUtcParse`,
  which implements this behaviour for the UTC-suffixed timestamps (and the
  invalid strings) appearing in those statements.
* A Python exception that the per-file `try`/`except` in the source catches is
  modelled by an `Option`/flag result: processing of the file stops and the
  accumulator mutations made so far are kept, mirroring the shared mutable
  `agg` dict.  In particular the counter updates of `parse_sessions` run one
  `+=` at a time (`Bucket.bumpSteps`): a non-numeric present token value
  raises mid-sequence and the partially-mutated bucket stays in the
  accumulator, exactly as in the source.  A present non-string
  `provider`/`model`, which the source would only reject by raising
  downstream, is modelled as a file-level error at extraction time.
-/

/-- A decoded JSON value (`json.loads` result).  Objects are association lists
with distinct keys, looked up by `jlookup`. -/
inductive Json (α : Type) where
  | null
  | bool (b : Bool)
  | num (q : α)
  | str (s : String)
  | obj (kvs : List (String × Json α))

mutual

def Json.decEq {α : Type} [DecidableEq α] : (a b : Json α) → Decidable (a = b)
  | .null, .null => isTrue rfl
  | .null, .bool _ => isFalse nofun
  | .null, .num _ => isFalse nofun
  | .null, .str _ => isFalse nofun
  | .null, .obj _ => isFalse nofun
  | .bool _, .null => isFalse nofun
  | .bool a, .bool b =>
    if h : a = b then isTrue (by rw [h]) else
      isFalse (by intro hh; injection hh with h1; exact h h1)
  | .bool _, .num _ => isFalse nofun
  | .bool _, .str _ => isFalse nofun
  | .bool _, .obj _ => isFalse nofun
  | .num _, .null => isFalse nofun
  | .num _, .bool _ => isFalse nofun
  | .num a, .num b =>
    if h : a = b then isTrue (by rw [h]) else
      isFalse (by intro hh; injection hh with h1; exact h h1)
  | .num _, .str _ => isFalse nofun
  | .num _, .obj _ => isFalse nofun
  | .str _, .null => isFalse nofun
  | .str _, .bool _ => isFalse nofun
  | .str _, .num _ => isFalse nofun
  | .str a, .str b =>
    if h : a = b then isTrue (by rw [h]) else
      isFalse (by intro hh; injection hh with h1; exact h h1)
  | .str _, .obj _ => isFalse nofun
  | .obj _, .null => isFalse nofun
  | .obj _, .bool _ => isFalse nofun
  | .obj _, .num _ => isFalse nofun
  | .obj _, .str _ => isFalse nofun
  | .obj a, .obj b =>
    match jsonKvsDecEq a b with
    | isTrue h => isTrue (by rw [h])
    | isFalse h => isFalse (by intro hh; injection hh with h1; exact h h1)

def jsonKvsDecEq {α : Type} [DecidableEq α] :
    (a b : List (String × Json α)) → Decidable (a = b)
  | [], [] => isTrue rfl
  | [], _ :: _ => isFalse nofun
  | _ :: _, [] => isFalse nofun
  | (k1, v1) :: r1, (k2, v2) :: r2 =>
    if hk : k1 = k2 then
      match Json.decEq v1 v2 with
      | isTrue hv =>
        match jsonKvsDecEq r1 r2 with
        | isTrue hr => isTrue (by rw [hk, hv, hr])
        | isFalse hr => isFalse (by intro hh; injection hh with h1 h2; exact hr h2)
      | isFalse hv =>
        isFalse (by
          intro hh; injection hh with h1 h2
          exact hv (congrArg Prod.snd h1))
    else
      isFalse (by
        intro hh; injection hh with h1 h2
        exact hk (congrArg Prod.fst h1))

end

instance {α : Type} [DecidableEq α] : DecidableEq (Json α) := Json.decEq

variable {α : Type} [AddCommMonoid α] [One α] [NatCast α] [DecidableEq α]

/-- Python `dict.get(key)` on a decoded JSON object. -/
def jlookup : List (String × Json α) → String → Option (Json α)
  | [], _ => none
  | (k, v) :: rest, key => if k = key then some v else jlookup rest key

/-- Python truthiness of a decoded JSON value (`if not usage: ...`). -/
def Json.truthy : Json α → Bool
  | .null => false
  | .bool b => b
  | .num q => !(q = 0)
  | .str s => !(s = "")
  | .obj kvs => !kvs.isEmpty

/-- Numeric view of a value: `isinstance(v, (int, float))`; Python `bool` is an
`int` subclass and counts as `0`/`1`. -/
def asNum? : Json α → Option α
  | .num q => some q
  | .bool b => some (if b then 1 else 0)
  | _ => none

/-- One physical line of a session JSONL file after `line.strip()` and
`json.loads`. -/
inductive RawLine (α : Type) where
  | blank
  | malformed
  | json (j : Json α)

/-- Lexicographic comparison of character lists by code point: the
comparison Python's `<` performs on `str` (and the semantics of Lean's
`String.lt`, implemented here structurally). -/
def charListLt : List Char → List Char → Bool
  | [], [] => false
  | [], _ :: _ => true
  | _ :: _, [] => false
  | a :: as, b :: bs =>
    if a < b then true else if b < a then false else charListLt as bs

/-- Python `s < t` on strings. -/
def pyStrLt (s t : String) : Bool := charListLt s.toList t.toList

/-- Python `s[:n]` on strings. -/
def pyStrTake (s : String) (n : ℕ) : String := String.mk (s.toList.take n)

/-- Python `model.startswith(p)`. -/
def pyStartsWith (p s : String) : Bool := p.toList.isPrefixOf s.toList

/-- `_parse_date_hour`: the `try` body is the abstracted parser `pdh`; on a
parse failure the current UTC `(date, hour)` pair `now` is returned. -/
def parse_date_hour (pdh : String → Option (String × ℕ)) (now : String × ℕ)
    (ts : String) : String × ℕ :=
  (pdh ts).getD now

/-- `record.get("timestamp", "")` followed by `_parse_date_hour`.  A
non-string timestamp raises inside `_parse_date_hour`'s `try` (on `.replace`)
and is caught there, yielding `now`. -/
def tsDateHour (pdh : String → Option (String × ℕ)) (now : String × ℕ)
    (kvs : List (String × Json α)) : String × ℕ :=
  match jlookup kvs "timestamp" with
  | some (.str s) => parse_date_hour pdh now s
  | some _ => now
  | none => parse_date_hour pdh now ""

/-- `if model_prefixes:` then skip unless some configured model-id marker is a
leading substring of `model`.  An empty list models `None` (both falsy). -/
def prefixSkip (ps : List String) (model : String) : Bool :=
  !ps.isEmpty && !(ps.any (fun p => pyStartsWith p model))

/-- The two inclusive date-range guards; `None` and `""` are both falsy in
`if start_date and date < start_date`. -/
def dateSkip (sd ed : Option String) (date : String) : Bool :=
  (match sd with
   | some s => !(s = "") && pyStrLt date s
   | none => false) ||
  (match ed with
   | some e => !(e = "") && pyStrLt e date
   | none => false)

/-- `cost_obj = usage.get("cost", {})` then the sum of its numeric values.
`none` models the `AttributeError` raised by `.values()` when the `cost` field
holds a non-dict. -/
def costSum : Option (Json α) → Option α
  | none => some 0
  | some (.obj cs) => some (cs.foldl (fun acc kv => acc + ((asNum? kv.2).getD 0)) 0)
  | some _ => none

/-- `usage.get(key, 0)` for a token counter of `parse_single_session`; a
present non-numeric value would raise on the subsequent arithmetic and is
modelled as a file error there (claim C8 is stated for benign lines). -/
def tokD (u : List (String × Json α)) (k : String) : Option α :=
  match jlookup u k with
  | none => some 0
  | some v => asNum? v

/-- One value of the in-process accumulator dict of `parse_sessions`. -/
structure Bucket (α : Type) where
  input_tokens : α
  output_tokens : α
  cache_read_tokens : α
  cache_write_tokens : α
  real_tokens : α
  request_count : ℕ
  estimated_cost_usd : α

instance [DecidableEq α] : DecidableEq (Bucket α) := fun a b =>
  match a, b with
  | ⟨a1, a2, a3, a4, a5, a6, a7⟩, ⟨b1, b2, b3, b4, b5, b6, b7⟩ =>
    decidable_of_iff
      (a1 = b1 ∧ a2 = b2 ∧ a3 = b3 ∧ a4 = b4 ∧ a5 = b5 ∧ a6 = b6 ∧ a7 = b7)
      (by rw [Bucket.mk.injEq])

def Bucket.zero : Bucket α := ⟨0, 0, 0, 0, 0, 0, 0⟩

/-- Python `real_t = input_t + output_t` (line 176 of `log_parser.py`):
number/bool pairs add to a number (`bool` is an `int` subclass), two strings
concatenate, and any other combination raises `TypeError` before the bucket
is touched. -/
def pyAdd (x y : Json α) : Option (Json α) :=
  match asNum? x, asNum? y with
  | some a, some b => some (.num (a + b))
  | _, _ =>
    match x, y with
    | .str a, .str b => some (.str (a ++ b))
    | _, _ => none

/-- Lines 180–187 of `log_parser.py`, one `+=` at a time: each counter update
either succeeds (the value is numeric under `asNum?`) or raises `TypeError`
mid-sequence, leaving the bucket partially mutated; `request_count` and the
cost counter follow only once every token `+=` before them has succeeded.
The flag is `false` when a step raised. -/
def Bucket.bumpSteps (b : Bucket α) (it ot crt cwt rt : Json α) (cost : α) :
    Bucket α × Bool :=
  match asNum? it with
  | none => (b, false)
  | some i =>
    let b1 := { b with input_tokens := b.input_tokens + i }
    match asNum? ot with
    | none => (b1, false)
    | some o =>
      let b2 := { b1 with output_tokens := b1.output_tokens + o }
      match asNum? crt with
      | none => (b2, false)
      | some cr =>
        let b3 := { b2 with cache_read_tokens := b2.cache_read_tokens + cr }
        match asNum? cwt with
        | none => (b3, false)
        | some cw =>
          let b4 := { b3 with cache_write_tokens := b3.cache_write_tokens + cw }
          match asNum? rt with
          | none => (b4, false)
          | some r =>
            ({ b4 with
                real_tokens := b4.real_tokens + r
                request_count := b4.request_count + 1
                estimated_cost_usd := b4.estimated_cost_usd + cost }, true)

/-- Composite aggregation key `(provider, model, date, hour)`. -/
abbrev AggKey := String × String × String × ℕ

abbrev AggList (α : Type) := List (AggKey × Bucket α)

/-- `bucket = agg[key]` on the `defaultdict` — which inserts a zero bucket
for a missing key (line 179) before any update runs — followed by the
stepwise in-place counter updates; the entry, possibly only partially
updated, stays in the accumulator either way. -/
def aggBump (agg : AggList α) (key : AggKey) (it ot crt cwt rt : Json α)
    (cost : α) : AggList α × Bool :=
  match agg with
  | [] =>
    match Bucket.zero.bumpSteps it ot crt cwt rt cost with
    | (b, ok) => ([(key, b)], ok)
  | (k, b) :: rest =>
    if k = key then
      match b.bumpSteps it ot crt cwt rt cost with
      | (b2, ok) => ((k, b2) :: rest, ok)
    else
      match aggBump rest key it ot crt cwt rt cost with
      | (rest2, ok) => ((k, b) :: rest2, ok)

/-- `msg.get(key, "unknown")` for `provider`/`model`: a present non-string is
modelled as a file error (see the header note). -/
def strOrD (m : List (String × Json α)) (k d : String) : Option String :=
  match jlookup m k with
  | none => some d
  | some (.str s) => some s
  | some _ => none

/-- The body of the per-line loop of `parse_sessions` for an
assistant-message record whose `usage` field is truthy (lines 150–187 of
`log_parser.py`).  The flag is `false` when the line raised: a non-dict
`cost` field or an unaddable `input + output` (line 176) raise before the
bucket is touched, while a failing counter `+=` leaves the bucket partially
updated — the mutated accumulator is returned either way, and
`records_found` grows only when every update succeeded. -/
def processUsageMsg (pdh : String → Option (String × ℕ)) (now : String × ℕ)
    (modelPrefixes : List String) (sd ed : Option String)
    (agg : AggList α) (found : ℕ)
    (kvs msg : List (String × Json α)) (u : Json α) : (AggList α × ℕ) × Bool :=
  match strOrD msg "provider" "unknown", strOrD msg "model" "unknown" with
  | some provider, some model =>
    let dh := tsDateHour pdh now kvs
    if prefixSkip modelPrefixes model then ((agg, found), true)
    else if dateSkip sd ed dh.1 then ((agg, found), true)
    else
      match u with
      | .obj uo =>
        match costSum (jlookup uo "cost") with
        | none => ((agg, found), false)
        | some cost =>
          let it := (jlookup uo "input").getD (.num 0)
          let ot := (jlookup uo "output").getD (.num 0)
          let crt := (jlookup uo "cacheRead").getD (.num 0)
          let cwt := (jlookup uo "cacheWrite").getD (.num 0)
          match pyAdd it ot with
          | none => ((agg, found), false)
          | some rt =>
            match aggBump agg (provider, model, dh.1, dh.2) it ot crt cwt rt cost with
            | (agg2, true) => ((agg2, found + 1), true)
            | (agg2, false) => ((agg2, found), false)
      | _ => ((agg, found), false)
  | _, _ => ((agg, found), false)

/-- The per-line loop body of `parse_sessions` after a successful
`json.loads` (lines 140–187).  A `false` flag models an exception
propagating to the per-file handler, with the (possibly mutated)
accumulator state at that point. -/
def processRecord (pdh : String → Option (String × ℕ)) (now : String × ℕ)
    (modelPrefixes : List String) (sd ed : Option String)
    (agg : AggList α) (found : ℕ) (j : Json α) : (AggList α × ℕ) × Bool :=
  match j with
  | .obj kvs =>
    match jlookup kvs "type" with
    | some (.str t) =>
      if t = "message" then
        match jlookup kvs "message" with
        | some (.obj msg) =>
          match jlookup msg "role" with
          | some (.str r) =>
            if r = "assistant" then
              match jlookup msg "usage" with
              | some u =>
                if u.truthy then
                  processUsageMsg pdh now modelPrefixes sd ed agg found kvs msg u
                else ((agg, found), true)
              | none => ((agg, found), true)
            else ((agg, found), true)
          | some _ => ((agg, found), true)
          | none => ((agg, found), true)
        | none => ((agg, found), true)
        | some _ => ((agg, found), false)
      else ((agg, found), true)
    | some _ => ((agg, found), true)
    | none => ((agg, found), true)
  | _ => ((agg, found), false)

/-- The per-file line loop; the `Bool` records whether the file completed
without an exception (and hence counts toward `files_parsed`). -/
def processLines (pdh : String → Option (String × ℕ)) (now : String × ℕ)
    (modelPrefixes : List String) (sd ed : Option String)
    (agg : AggList α) (found : ℕ) : List (RawLine α) → (AggList α × ℕ) × Bool
  | [] => ((agg, found), true)
  | .blank :: rest => processLines pdh now modelPrefixes sd ed agg found rest
  | .malformed :: rest => processLines pdh now modelPrefixes sd ed agg found rest
  | .json j :: rest =>
    match processRecord pdh now modelPrefixes sd ed agg found j with
    | (r, false) => (r, false)
    | ((agg2, f2), true) => processLines pdh now modelPrefixes sd ed agg2 f2 rest

/-- The outer loop over session files of `parse_sessions`, threading the
shared accumulator and the `files_parsed`/`records_found` diagnostics. -/
def runFiles (pdh : String → Option (String × ℕ)) (now : String × ℕ)
    (modelPrefixes : List String) (sd ed : Option String)
    (agg : AggList α) (found filesParsed : ℕ) :
    List (List (RawLine α)) → AggList α × ℕ × ℕ
  | [] => (agg, found, filesParsed)
  | file :: rest =>
    match processLines pdh now modelPrefixes sd ed agg found file with
    | ((agg2, f2), ok) =>
      runFiles pdh now modelPrefixes sd ed agg2 f2
        (filesParsed + if ok then 1 else 0) rest

/-- One element of the list returned by `parse_sessions`
(the dict built at lines 202–216 of `log_parser.py`). -/
structure SessionRec (α : Type) where
  provider : String
  model : String
  date : String
  hour : ℕ
  input_tokens : α
  output_tokens : α
  cache_read_tokens : α
  cache_write_tokens : α
  real_tokens : α
  request_count : ℕ
  estimated_cost_usd : α

instance [DecidableEq α] : DecidableEq (SessionRec α) := fun a b =>
  match a, b with
  | ⟨a1, a2, a3, a4, a5, a6, a7, a8, a9, a10, a11⟩,
    ⟨b1, b2, b3, b4, b5, b6, b7, b8, b9, b10, b11⟩ =>
    decidable_of_iff
      (a1 = b1 ∧ a2 = b2 ∧ a3 = b3 ∧ a4 = b4 ∧ a5 = b5 ∧ a6 = b6 ∧ a7 = b7 ∧
       a8 = b8 ∧ a9 = b9 ∧ a10 = b10 ∧ a11 = b11)
      (by rw [SessionRec.mk.injEq])

def toRec : (AggKey × Bucket α) → SessionRec α
  | ((p, m, d, h), b) =>
    { provider := p, model := m, date := d, hour := h
      input_tokens := b.input_tokens
      output_tokens := b.output_tokens
      cache_read_tokens := b.cache_read_tokens
      cache_write_tokens := b.cache_write_tokens
      real_tokens := b.real_tokens
      request_count := b.request_count
      estimated_cost_usd := b.estimated_cost_usd }

/-- The composite key under the lexicographic order used by Python's
`sorted(agg.items())` (tuple comparison; buckets are never compared because
keys are distinct). -/
abbrev KeyL := String ×ₗ String ×ₗ String ×ₗ ℕ

def keyL (k : AggKey) : KeyL := toLex (k.1, toLex (k.2.1, toLex (k.2.2.1, k.2.2.2)))

def entryLe (a b : AggKey × Bucket α) : Prop := keyL a.1 ≤ keyL b.1

instance : DecidableRel (entryLe (α := α)) := fun a b =>
  inferInstanceAs (Decidable (keyL a.1 ≤ keyL b.1))

instance : IsTotal (AggKey × Bucket α) entryLe :=
  ⟨fun a b => le_total (keyL a.1) (keyL b.1)⟩

instance : IsTrans (AggKey × Bucket α) entryLe :=
  ⟨fun _ _ _ hab hbc => le_trans hab hbc⟩

/-- `parse_sessions`, also exposing the `files_parsed` and `records_found`
diagnostics the source logs.  The session directory contents arrive as
`files`; `model_prefixes = None` is the empty list, and the `start_date` /
`end_date` arguments are optional ISO dates. -/
def parse_sessions_full (pdh : String → Option (String × ℕ)) (now : String × ℕ)
    (files : List (List (RawLine α))) (modelPrefixes : List String)
    (sd ed : Option String) : List (SessionRec α) × ℕ × ℕ :=
  match runFiles pdh now modelPrefixes sd ed [] 0 0 files with
  | (agg, found, filesParsed) =>
    ((List.insertionSort entryLe agg).map toRec, filesParsed, found)

/-- The list of aggregated usage records returned by `parse_sessions`. -/
def parse_sessions (pdh : String → Option (String × ℕ)) (now : String × ℕ)
    (files : List (List (RawLine α))) (modelPrefixes : List String)
    (sd ed : Option String) : List (SessionRec α) :=
  (parse_sessions_full pdh now files modelPrefixes sd ed).1

/-- Two decimal digits to a number. -/
def twoDigits (a b : Char) : ℕ := (a.toNat - 48) * 10 + (b.toNat - 48)

/-- Trailing UTC timezone marker accepted in the concrete statements:
`Z` or `+00:00` (both denote UTC, so `astimezone(utc)` is the identity). -/
def tzEnd : List Char → Bool
  | ['Z'] => true
  | ['+', '0', '0', ':', '0', '0'] => true
  | _ => false

/-- One or more fractional-second digits followed by the timezone marker. -/
def fracDigitsTz : List Char → Bool
  | [] => false
  | c :: rest =>
    if c.isDigit then tzEnd rest || fracDigitsTz rest else false

/-- A `.` then fractional seconds, then the timezone marker. -/
def fracTz : List Char → Bool
  | '.' :: rest => fracDigitsTz rest
  | _ => false

/-- A concrete instance of the abstracted `pdh` parameter: the behaviour of
`datetime.fromisoformat(ts.replace("Z", "+00:00")).astimezone(utc)` projected
to `(date, hour)`, implemented for the timestamp strings appearing in the
concrete statements of this file — bare ISO dates, full UTC instants
(`Z` or `+00:00` suffix, optional fractional seconds) — and returning `none`
on everything malformed (in particular the empty string, on which
`fromisoformat` raises `ValueError`). -/
def isoUtcParse (s : String) : Option (String × ℕ) :=
  match s.toList with
  | [y1, y2, y3, y4, '-', m1, m2, '-', d1, d2] =>
    if ([y1, y2, y3, y4, m1, m2, d1, d2].all Char.isDigit
        && 1 ≤ twoDigits m1 m2 && twoDigits m1 m2 ≤ 12
        && 1 ≤ twoDigits d1 d2 && twoDigits d1 d2 ≤ 31) then
      some (s, 0)
    else none
  | y1 :: y2 :: y3 :: y4 :: '-' :: m1 :: m2 :: '-' :: d1 :: d2 :: 'T' ::
      h1 :: h2 :: ':' :: n1 :: n2 :: ':' :: s1 :: s2 :: rest =>
    if ([y1, y2, y3, y4, m1, m2, d1, d2, h1, h2, n1, n2, s1, s2].all Char.isDigit
        && 1 ≤ twoDigits m1 m2 && twoDigits m1 m2 ≤ 12
        && 1 ≤ twoDigits d1 d2 && twoDigits d1 d2 ≤ 31
        && twoDigits h1 h2 ≤ 23 && twoDigits n1 n2 ≤ 59 && twoDigits s1 s2 ≤ 59
        && (tzEnd rest || fracTz rest)) then
      some (String.mk [y1, y2, y3, y4, '-', m1, m2, '-', d1, d2], twoDigits h1 h2)
    else none
  | _ => none

/-- One value of the `by_model` mapping of `parse_single_session`. -/
structure MBucket (α : Type) where
  provider : String
  input_tokens : α
  output_tokens : α
  cache_read_tokens : α
  cache_write_tokens : α
  request_count : ℕ

instance [DecidableEq α] : DecidableEq (MBucket α) := fun a b =>
  match a, b with
  | ⟨a1, a2, a3, a4, a5, a6⟩, ⟨b1, b2, b3, b4, b5, b6⟩ =>
    decidable_of_iff
      (a1 = b1 ∧ a2 = b2 ∧ a3 = b3 ∧ a4 = b4 ∧ a5 = b5 ∧ a6 = b6)
      (by rw [MBucket.mk.injEq])

/-- The running state (and final return value) of `parse_single_session`. -/
structure SessState (α : Type) where
  started_at : Option String
  message_count : ℕ
  by_model : List (String × MBucket α)

instance [DecidableEq α] : DecidableEq (SessState α) := fun a b =>
  match a, b with
  | ⟨a1, a2, a3⟩, ⟨b1, b2, b3⟩ =>
    decidable_of_iff (a1 = b1 ∧ a2 = b2 ∧ a3 = b3) (by rw [SessState.mk.injEq])

/-- Lines 279–294 of `log_parser.py`: create the per-model bucket on first
sight (recording `provider` at creation time) and add the usage counters. -/
def mbAdd (bm : List (String × MBucket α)) (model provider : String)
    (i o cr cw : α) : List (String × MBucket α) :=
  match bm with
  | [] => [(model, ⟨provider, i, o, cr, cw, 1⟩)]
  | (m, b) :: rest =>
    if m = model then
      (m, { b with
              input_tokens := b.input_tokens + i
              output_tokens := b.output_tokens + o
              cache_read_tokens := b.cache_read_tokens + cr
              cache_write_tokens := b.cache_write_tokens + cw
              request_count := b.request_count + 1 }) :: rest
    else (m, b) :: mbAdd rest model provider i o cr cw

/-- The assistant-message part of `parse_single_session`'s line loop
(lines 264–294): count the turn, then fold usage (if any) into `by_model`. -/
def psssMsg (st : SessState α) (msg : List (String × Json α)) :
    Option (SessState α) :=
  match jlookup msg "role" with
  | some (.str r) =>
    if r = "assistant" then
      let st2 := { st with message_count := st.message_count + 1 }
      match jlookup msg "usage" with
      | some u =>
        if u.truthy then
          match strOrD msg "provider" "unknown", strOrD msg "model" "unknown", u with
          | some provider, some model, .obj uo =>
            match tokD uo "input", tokD uo "output", tokD uo "cacheRead",
                  tokD uo "cacheWrite" with
            | some i, some o, some cr, some cw =>
              some { st2 with by_model := mbAdd st2.by_model model provider i o cr cw }
            | _, _, _, _ => none
          | _, _, _ => none
        else some st2
      | none => some st2
    else some st
  | some _ => some st
  | none => some st

/-- One line of `parse_single_session` (lines 250–294): track the earliest
truthy timestamp across **all** decoded lines, then process assistant
messages.  `none` models an exception reaching the per-file handler. -/
def psssLine (st : SessState α) : RawLine α → Option (SessState α)
  | .blank => some st
  | .malformed => some st
  | .json (.obj kvs) =>
    let sa? :=
      match jlookup kvs "timestamp" with
      | none => some st.started_at
      | some (.str s) =>
        some (match st.started_at with
              | none => if s = "" then none else some s
              | some cur => if !(s = "") && pyStrLt s cur then some s else some cur)
      | some _ => none
    match sa? with
    | none => none
    | some sa =>
      let st1 := { st with started_at := sa }
      match jlookup kvs "type" with
      | some (.str t) =>
        if t = "message" then
          match jlookup kvs "message" with
          | some (.obj msg) => psssMsg st1 msg
          | none => some st1
          | some _ => none
        else some st1
      | some _ => some st1
      | none => some st1
  | .json _ => none

/-- The line loop of `parse_single_session`; on an exception the state built
so far is returned (the per-file handler logs and falls through to `return`). -/
def psssGo (st : SessState α) : List (RawLine α) → SessState α
  | [] => st
  | l :: rest =>
    match psssLine st l with
    | none => st
    | some st2 => psssGo st2 rest

/-- `parse_single_session`: a single full-file fold producing the session
snapshot (`started_at`, `message_count`, `by_model`). -/
def parse_single_session (lines : List (RawLine α)) : SessState α :=
  psssGo ⟨none, 0, []⟩ lines

/-- The Python exceptions arising in the provider and persistence paths.
`keyError k` is `KeyError(k)` from a dict subscript, `typeError k` is the
`TypeError` for the unexpected keyword argument `k` of a dataclass call, and
`programmingError k` is sqlite's missing named-binding error for `:k`. -/
inductive PyErr where
  | keyError (k : String)
  | typeError (k : String)
  | programmingError (k : String)
deriving DecidableEq

/-- `str(exc)` for the exceptions above (used truncated in the sync log). -/
def pyStr : PyErr → String
  | .keyError k => "'" ++ k ++ "'"
  | .typeError k => "__init__() got an unexpected keyword argument '" ++ k ++ "'"
  | .programmingError k => "You did not supply a value for binding parameter :" ++ k ++ "."

/-- The `UsageRecord` dataclass of `base_provider.py`: its eight declared
fields.  Values are untyped at runtime, hence `Json`. -/
structure UsageRecordPy (α : Type) where
  provider : Json α
  model : Json α
  date : Json α
  input_tokens : Json α
  output_tokens : Json α
  total_tokens : Json α
  request_count : Json α
  estimated_cost_usd : Json α

instance [DecidableEq α] : DecidableEq (UsageRecordPy α) := fun a b =>
  match a, b with
  | ⟨a1, a2, a3, a4, a5, a6, a7, a8⟩, ⟨b1, b2, b3, b4, b5, b6, b7, b8⟩ =>
    decidable_of_iff
      (a1 = b1 ∧ a2 = b2 ∧ a3 = b3 ∧ a4 = b4 ∧ a5 = b5 ∧ a6 = b6 ∧ a7 = b7 ∧
       a8 = b8)
      (by rw [UsageRecordPy.mk.injEq])

/-- The field names the `UsageRecord` dataclass declares, in order. -/
def usageRecordFieldNames : List String :=
  ["provider", "model", "date", "input_tokens", "output_tokens",
   "total_tokens", "request_count", "estimated_cost_usd"]

/-- Calling the `UsageRecord` constructor with keyword arguments: an
argument whose name is not a declared field raises `TypeError` (the first
such name in call order is reported). -/
def mkUsageRecord (kwargs : List (String × Json α)) :
    Except PyErr (UsageRecordPy α) :=
  match kwargs.find? (fun kv => !(usageRecordFieldNames.contains kv.1)) with
  | some kv => .error (.typeError kv.1)
  | none =>
    match jlookup kwargs "provider", jlookup kwargs "model", jlookup kwargs "date",
          jlookup kwargs "input_tokens", jlookup kwargs "output_tokens",
          jlookup kwargs "total_tokens", jlookup kwargs "request_count",
          jlookup kwargs "estimated_cost_usd" with
    | some p, some m, some d, some it, some ot, some tt, some rc, some ec =>
      .ok ⟨p, m, d, it, ot, tt, rc, ec⟩
    | _, _, _, _, _, _, _, _ => .error (.typeError "missing a required argument")

/-- The dict view of one `parse_sessions` result element: exactly the keys
built at lines 202–216 of `log_parser.py` (note: no `total_tokens`). -/
def SessionRec.item? (r : SessionRec α) : String → Option (Json α)
  | "provider" => some (.str r.provider)
  | "model" => some (.str r.model)
  | "date" => some (.str r.date)
  | "hour" => some (.num (r.hour : α))
  | "input_tokens" => some (.num r.input_tokens)
  | "output_tokens" => some (.num r.output_tokens)
  | "cache_read_tokens" => some (.num r.cache_read_tokens)
  | "cache_write_tokens" => some (.num r.cache_write_tokens)
  | "real_tokens" => some (.num r.real_tokens)
  | "request_count" => some (.num (r.request_count : α))
  | "estimated_cost_usd" => some (.num r.estimated_cost_usd)
  | _ => none

/-- `r[k]` on a `parse_sessions` result dict: `KeyError` when absent. -/
def recItem (r : SessionRec α) (k : String) : Except PyErr (Json α) :=
  match r.item? k with
  | some v => .ok v
  | none => .error (.keyError k)

instance {ε β : Type} [DecidableEq ε] [DecidableEq β] : DecidableEq (Except ε β) :=
  fun x y =>
    match x, y with
    | .error a, .error c => decidable_of_iff (a = c) (by simp)
    | .error _, .ok _ => isFalse nofun
    | .ok _, .error _ => isFalse nofun
    | .ok a, .ok c => decidable_of_iff (a = c) (by simp)

/-- `os.getenv(key, "")`. -/
abbrev Env := String → String

/-- `bool(os.getenv(key, "").strip())`, the `is_configured` pattern shared by
the three providers. -/
def envTruthy (env : Env) (k : String) : Bool :=
  (env k).toList.any (fun c => !c.isWhitespace)

/-- `MoonshotProvider.fetch_usage`'s per-record construction (lines 50–61 of
`moonshot_provider.py`): the keyword values are dict subscripts evaluated in
source order, then the dataclass is called. -/
def moonshotBuild (r : SessionRec α) : Except PyErr (UsageRecordPy α) := do
  let p ← recItem r "provider"
  let m ← recItem r "model"
  let d ← recItem r "date"
  let it ← recItem r "input_tokens"
  let ot ← recItem r "output_tokens"
  let tt ← recItem r "total_tokens"
  let rc ← recItem r "request_count"
  let ec ← recItem r "estimated_cost_usd"
  mkUsageRecord [("provider", p), ("model", m), ("date", d),
    ("input_tokens", it), ("output_tokens", ot), ("total_tokens", tt),
    ("request_count", rc), ("estimated_cost_usd", ec)]

/-- `AnthropicProvider.fetch_usage`'s per-record construction (lines 57–70 of
`anthropic_provider.py`). -/
def anthropicBuild (r : SessionRec α) : Except PyErr (UsageRecordPy α) := do
  let p ← recItem r "provider"
  let m ← recItem r "model"
  let d ← recItem r "date"
  let h ← recItem r "hour"
  let it ← recItem r "input_tokens"
  let ot ← recItem r "output_tokens"
  let cr ← recItem r "cache_read_tokens"
  let rt ← recItem r "real_tokens"
  let rc ← recItem r "request_count"
  let ec ← recItem r "estimated_cost_usd"
  mkUsageRecord [("provider", p), ("model", m), ("date", d), ("hour", h),
    ("input_tokens", it), ("output_tokens", ot), ("cache_read_tokens", cr),
    ("real_tokens", rt), ("request_count", rc), ("estimated_cost_usd", ec)]

/-- `GoogleProvider.fetch_usage`'s per-record construction (lines 64–78 of
`google_provider.py`). -/
def googleBuild (r : SessionRec α) : Except PyErr (UsageRecordPy α) := do
  let p ← recItem r "provider"
  let m ← recItem r "model"
  let d ← recItem r "date"
  let h ← recItem r "hour"
  let it ← recItem r "input_tokens"
  let ot ← recItem r "output_tokens"
  let cr ← recItem r "cache_read_tokens"
  let cw ← recItem r "cache_write_tokens"
  let rt ← recItem r "real_tokens"
  let rc ← recItem r "request_count"
  let ec ← recItem r "estimated_cost_usd"
  mkUsageRecord [("provider", p), ("model", m), ("date", d), ("hour", h),
    ("input_tokens", it), ("output_tokens", ot), ("cache_read_tokens", cr),
    ("cache_write_tokens", cw), ("real_tokens", rt), ("request_count", rc),
    ("estimated_cost_usd", ec)]

/-- `MoonshotProvider.fetch_usage`. -/
def moonshotFetch (env : Env) (pdh : String → Option (String × ℕ))
    (now : String × ℕ) (files : List (List (RawLine α))) (sd ed : Option String) :
    Except PyErr (List (UsageRecordPy α)) :=
  if !envTruthy env "MOONSHOT_API_KEY" then .ok []
  else (parse_sessions pdh now files ["kimi-", "moonshot-"] sd ed).mapM moonshotBuild

/-- `AnthropicProvider.fetch_usage`. -/
def anthropicFetch (env : Env) (pdh : String → Option (String × ℕ))
    (now : String × ℕ) (files : List (List (RawLine α))) (sd ed : Option String) :
    Except PyErr (List (UsageRecordPy α)) :=
  if !envTruthy env "ANTHROPIC_API_KEY" then .ok []
  else (parse_sessions pdh now files ["claude-"] sd ed).mapM anthropicBuild

/-- `GoogleProvider.fetch_usage`. -/
def googleFetch (env : Env) (pdh : String → Option (String × ℕ))
    (now : String × ℕ) (files : List (List (RawLine α))) (sd ed : Option String) :
    Except PyErr (List (UsageRecordPy α)) :=
  if !envTruthy env "GEMINI_API_KEY" then .ok []
  else (parse_sessions pdh now files ["gemini-"] sd ed).mapM googleBuild

/-- A registered provider as the scheduler sees it: its registry name, its
display name, its `is_configured()` answer, and the result of
`fetch_usage(start_date, end_date)` for the sync pass at hand. -/
structure ProviderM (α : Type) where
  name : String
  displayName : String
  configured : Bool
  fetch : Except PyErr (List (UsageRecordPy α))

instance [DecidableEq α] : DecidableEq (ProviderM α) := fun a b =>
  match a, b with
  | ⟨a1, a2, a3, a4⟩, ⟨b1, b2, b3, b4⟩ =>
    decidable_of_iff (a1 = b1 ∧ a2 = b2 ∧ a3 = b3 ∧ a4 = b4)
      (by rw [ProviderM.mk.injEq])

/-- `ALL_PROVIDERS` from `app/providers/__init__.py`, in registration order,
specialised to one sync pass's environment, session files and date range. -/
def allProviders (env : Env) (pdh : String → Option (String × ℕ))
    (now : String × ℕ) (files : List (List (RawLine α))) (sd ed : Option String) :
    List (ProviderM α) :=
  [⟨"anthropic", "Anthropic", envTruthy env "ANTHROPIC_API_KEY",
      anthropicFetch env pdh now files sd ed⟩,
   ⟨"google", "Google Gemini", envTruthy env "GEMINI_API_KEY",
      googleFetch env pdh now files sd ed⟩,
   ⟨"moonshot", "Moonshot / Kimi", envTruthy env "MOONSHOT_API_KEY",
      moonshotFetch env pdh now files sd ed⟩]

/-- Composite key of the `usage_records` table
(`UNIQUE(provider, model, date, hour)`); column values are untyped. -/
abbrev UKey (α : Type) := Json α × Json α × Json α × Json α

/-- One row of the `usage_records` table (the `id` rowid is left implicit:
row position in the list reflects insertion order, and `ON CONFLICT DO
UPDATE` keeps it). -/
structure UsageRow (α : Type) where
  provider : Json α
  model : Json α
  date : Json α
  hour : Json α
  input_tokens : Json α
  output_tokens : Json α
  cache_read_tokens : Json α
  cache_write_tokens : Json α
  real_tokens : Json α
  request_count : Json α
  estimated_cost_usd : Json α
  synced_at : Json α

instance [DecidableEq α] : DecidableEq (UsageRow α) := fun a b =>
  match a, b with
  | ⟨a1, a2, a3, a4, a5, a6, a7, a8, a9, a10, a11, a12⟩,
    ⟨b1, b2, b3, b4, b5, b6, b7, b8, b9, b10, b11, b12⟩ =>
    decidable_of_iff
      (a1 = b1 ∧ a2 = b2 ∧ a3 = b3 ∧ a4 = b4 ∧ a5 = b5 ∧ a6 = b6 ∧ a7 = b7 ∧
       a8 = b8 ∧ a9 = b9 ∧ a10 = b10 ∧ a11 = b11 ∧ a12 = b12)
      (by rw [UsageRow.mk.injEq])

abbrev UsageTable (α : Type) := List (UKey α × UsageRow α)

instance [DecidableEq α] : DecidableEq (UsageTable α) := List.hasDecEq

/-- The named parameters the SQL of `upsert_usage_record` binds, in the order
they occur in the statement. -/
def sqlParamNames : List String :=
  ["provider", "model", "date", "hour", "input_tokens", "output_tokens",
   "cache_read_tokens", "cache_write_tokens", "real_tokens", "request_count",
   "estimated_cost_usd", "synced_at"]

/-- `INSERT ... ON CONFLICT(provider, model, date, hour) DO UPDATE SET ...`:
replace the row with the matching composite key in place, else append. -/
def tableUpsert (key : UKey α) (row : UsageRow α) : UsageTable α → UsageTable α
  | [] => [(key, row)]
  | (k, r) :: rest =>
    if k = key then (k, row) :: rest else (k, r) :: tableUpsert key row rest

/-- `upsert_usage_record(db, record)` (`database.py` lines 162–180): sqlite
raises `ProgrammingError` for the first SQL parameter the dict does not
supply; otherwise the row replaces any row with the same composite key. -/
def upsert_usage_record (params : List (String × Json α)) (t : UsageTable α) :
    Except PyErr (UsageTable α) :=
  match sqlParamNames.find? (fun k => (jlookup params k).isNone) with
  | some k => .error (.programmingError k)
  | none =>
    let get := fun k => (jlookup params k).getD .null
    let key : UKey α := (get "provider", get "model", get "date", get "hour")
    let row : UsageRow α :=
      ⟨get "provider", get "model", get "date", get "hour",
       get "input_tokens", get "output_tokens", get "cache_read_tokens",
       get "cache_write_tokens", get "real_tokens", get "request_count",
       get "estimated_cost_usd", get "synced_at"⟩
    .ok (tableUpsert key row t)

/-- The dict literal `sync_provider` passes to `upsert_usage_record`
(`scheduler.py` lines 56–66) — note it carries `total_tokens` but none of
`hour`, `cache_read_tokens`, `cache_write_tokens`, `real_tokens`. -/
def schedUpsertDict (rec : UsageRecordPy α) (syncedAt : String) :
    List (String × Json α) :=
  [("provider", rec.provider), ("model", rec.model), ("date", rec.date),
   ("input_tokens", rec.input_tokens), ("output_tokens", rec.output_tokens),
   ("total_tokens", rec.total_tokens), ("request_count", rec.request_count),
   ("estimated_cost_usd", rec.estimated_cost_usd), ("synced_at", .str syncedAt)]

/-- One `sync_log` row: provider, status, message, synced_at. -/
structure SyncLogRow where
  provider : String
  status : String
  message : String
  synced_at : String
deriving DecidableEq

/-- The database state the sync driver mutates. -/
structure Store (α : Type) where
  usage : UsageTable α
  syncLog : List SyncLogRow

instance [DecidableEq α] : DecidableEq (Store α) := fun a b =>
  match a, b with
  | ⟨a1, a2⟩, ⟨b1, b2⟩ =>
    decidable_of_iff (a1 = b1 ∧ a2 = b2) (by rw [Store.mk.injEq])

/-- The status dict `sync_provider` returns, or `raised` when an exception
escapes it (nothing in `sync_provider` or `sync_all` catches persistence
errors). -/
inductive SyncRes where
  | statusMsg (status msg : String)
  | okRes (records : ℕ)
  | raised (e : PyErr)
deriving DecidableEq

/-- The persistence block of `sync_provider` (lines 54–68): one connection,
all upserts plus the "ok" `sync_log` insert, then a single `commit`.  An
exception inside the block leaves the store unchanged (the connection closes
without committing). -/
def persistRecords (name : String) (recs : List (UsageRecordPy α))
    (syncedAt : String) (st : Store α) : Store α × SyncRes :=
  match recs.foldlM (fun t r => upsert_usage_record (schedUpsertDict r syncedAt) t)
      st.usage with
  | .error e => (st, .raised e)
  | .ok t2 =>
    ({ usage := t2
       syncLog := st.syncLog ++
         [⟨name, "ok", toString recs.length ++ " records upserted", syncedAt⟩] },
     .okRes recs.length)

/-- `sync_provider(provider_name, start_date, end_date)` over a registry
`ps`, with `synced_at = _now_iso()` passed in. -/
def sync_provider (ps : List (ProviderM α)) (name : String) (syncedAt : String)
    (st : Store α) : Store α × SyncRes :=
  match ps.find? (fun p => p.name == name) with
  | none => (st, .statusMsg "error" ("Unknown provider: " ++ name))
  | some p =>
    if !p.configured then
      (st, .statusMsg "skipped" (p.displayName ++ ": not configured — skipping"))
    else
      match p.fetch with
      | .error exc =>
        ({ st with syncLog := st.syncLog ++
             [⟨name, "error", pyStrTake (pyStr exc) 500, syncedAt⟩] },
         .statusMsg "error" (p.displayName ++ ": fetch failed — " ++ pyStr exc))
      | .ok recs => persistRecords name recs syncedAt st

/-- The provider loop of `sync_all` over a registry: each iteration calls
`sync_provider` with the provider's name (looked up again in the registry);
an uncaught exception aborts the remaining iterations. -/
def syncAllGo (ps : List (ProviderM α)) (syncedAt : String) (st : Store α) :
    List (ProviderM α) → Store α × List (String × SyncRes)
  | [] => (st, [])
  | p :: rest =>
    match sync_provider ps p.name syncedAt st with
    | (st2, .raised e) => (st2, [(p.name, .raised e)])
    | (st2, r) =>
      match syncAllGo ps syncedAt st2 rest with
      | (st3, rs) => (st3, (p.name, r) :: rs)

/-- `sync_all()`: iterate all registered providers sequentially, returning
the final store and the per-provider outcomes. -/
def sync_all (ps : List (ProviderM α)) (syncedAt : String) (st : Store α) :
    Store α × List (String × SyncRes) :=
  syncAllGo ps syncedAt st ps

/-- The timestamp a line contributes to session-start tracking: the `timestamp`
field of a decoded object line when it is a truthy string. -/
def lineTs? : RawLine α → Option String
  | .json (.obj kvs) =>
    match jlookup kvs "timestamp" with
    | some (.str s) => if s = "" then none else some s
    | _ => none
  | _ => none

/-- Whether a line is an assistant-role message line (the lines
`parse_single_session` counts toward `message_count`). -/
def isAssistantLine : RawLine α → Bool
  | .json (.obj kvs) =>
    (match jlookup kvs "type" with
     | some (.str t) => t = "message"
     | _ => false) &&
    (match jlookup kvs "message" with
     | some (.obj msg) =>
       match jlookup msg "role" with
       | some (.str r) => r = "assistant"
       | _ => false
     | _ => false)
  | _ => false

/-- The update `parse_single_session` applies to `started_at` for one line:
keep the smaller of the current value and the line's truthy timestamp. -/
def tsMergeLine (sa : Option String) (l : RawLine α) : Option String :=
  match lineTs? l with
  | none => sa
  | some s =>
    match sa with
    | none => some s
    | some cur => if pyStrLt s cur then some s else some cur

/-- Benign usage shape for `parse_single_session`: string-or-absent
`provider`/`model`, a usage dict with numeric-or-absent token counts. -/
def usageBenign (msg : List (String × Json α)) (u : Json α) : Bool :=
  (strOrD msg "provider" "unknown").isSome &&
  (strOrD msg "model" "unknown").isSome &&
  (match u with
   | .obj uo =>
     (tokD uo "input").isSome && (tokD uo "output").isSome &&
     (tokD uo "cacheRead").isSome && (tokD uo "cacheWrite").isSome
   | _ => false)

/-- Benign message shape: if the line is an assistant message with truthy
usage, the usage part is benign. -/
def msgBenign (msg : List (String × Json α)) : Bool :=
  match jlookup msg "role" with
  | some (.str r) =>
    if r = "assistant" then
      match jlookup msg "usage" with
      | some u => if u.truthy then usageBenign msg u else true
      | none => true
    else true
  | _ => true

/-- A line shape on which `parse_single_session`'s loop provably raises no
exception: blank and malformed lines, and object lines with a
string-or-absent timestamp and an absent-or-well-shaped message. -/
def lineBenign : RawLine α → Bool
  | .blank => true
  | .malformed => true
  | .json (.obj kvs) =>
    (match jlookup kvs "timestamp" with
     | none => true
     | some (.str _) => true
     | some _ => false) &&
    (match jlookup kvs "message" with
     | none => true
     | some (.obj msg) => msgBenign msg
     | some _ => false)
  | .json _ => false

/-- All SQL parameters supplied (the success condition of
`upsert_usage_record`). -/
def paramsComplete (p : List (String × Json α)) : Bool :=
  sqlParamNames.all (fun k => (jlookup p k).isSome)

/-- The composite key bound by the upsert's parameter dict. -/
def paramKey (p : List (String × Json α)) : UKey α :=
  ((jlookup p "provider").getD .null, (jlookup p "model").getD .null,
   (jlookup p "date").getD .null, (jlookup p "hour").getD .null)

/-- The row the upsert writes for a complete parameter dict. -/
def paramRow (p : List (String × Json α)) : UsageRow α :=
  let get := fun k => (jlookup p k).getD Json.null
  ⟨get "provider", get "model", get "date", get "hour",
   get "input_tokens", get "output_tokens", get "cache_read_tokens",
   get "cache_write_tokens", get "real_tokens", get "request_count",
   get "estimated_cost_usd", get "synced_at"⟩

/-- The persistence of a whole record list through `upsert_usage_record`. -/
def upsertAll (ps : List (List (String × Json α))) (t : UsageTable α) :
    Except PyErr (UsageTable α) :=
  ps.foldlM (fun t p => upsert_usage_record p t) t

/-- The pure view of `upsertAll` when every dict is complete. -/
def upsertAllP (ps : List (List (String × Json α))) (t : UsageTable α) :
    UsageTable α :=
  ps.foldl (fun t p => tableUpsert (paramKey p) (paramRow p) t) t

/-- The last row a record list writes at a given composite key. -/
def writeOf (ps : List (List (String × Json α))) (k : UKey α) :
    Option (UsageRow α) :=
  ps.foldl (fun acc p => if paramKey p = k then some (paramRow p) else acc) none

/-- First row with the given composite key (what a keyed SELECT sees). -/
def lookupRow (k : UKey α) : UsageTable α → Option (UsageRow α)
  | [] => none
  | (k2, r) :: rest => if k2 = k then some r else lookupRow k rest

/-- The `SyncRes` a provider produces, which depends only on the provider
(and the pass timestamp), never on the store contents. -/
def provRes (syncedAt : String) (p : ProviderM α) : SyncRes :=
  if !p.configured then
    .statusMsg "skipped" (p.displayName ++ ": not configured — skipping")
  else
    match p.fetch with
    | .error exc => .statusMsg "error" (p.displayName ++ ": fetch failed — " ++ pyStr exc)
    | .ok recs =>
      match recs.foldlM
          (fun t r => upsert_usage_record (schedUpsertDict r syncedAt) t)
          ([] : UsageTable α) with
      | .error e => .raised e
      | .ok _ => .okRes recs.length

/-- The sort key of one `parse_sessions` output record. -/
def recKey (r : SessionRec α) : KeyL :=
  toLex (r.provider, toLex (r.model, toLex (r.date, r.hour)))

/-- A well-formed assistant usage line for the Kimi model (nested `usage`
shape from the module docstring of `log_parser.py`). -/
def kimiLine : RawLine ℤ := .json (.obj
  [("type", .str "message"), ("timestamp", .str "2026-02-18T08:00:00Z"),
   ("message", .obj
     [("role", .str "assistant"), ("provider", .str "moonshot"),
      ("model", .str "kimi-k2.5"),
      ("usage", .obj
        [("input", .num 100), ("output", .num 50),
         ("cacheRead", .num 7), ("cacheWrite", .num 3),
         ("cost", .obj [("input", .num 1), ("output", .num 2)])])])])

/-- A well-formed assistant usage line for a Claude model. -/
def claudeLine : RawLine ℤ := .json (.obj
  [("type", .str "message"), ("timestamp", .str "2026-02-18T10:00:00Z"),
   ("message", .obj
     [("role", .str "assistant"), ("provider", .str "anthropic"),
      ("model", .str "claude-sonnet-4-6"),
      ("usage", .obj [("input", .num 500), ("output", .num 200)])])])

/-- A well-formed assistant usage line for a Gemini model. -/
def geminiLine : RawLine ℤ := .json (.obj
  [("type", .str "message"), ("timestamp", .str "2026-02-18T11:00:00Z"),
   ("message", .obj
     [("role", .str "assistant"), ("provider", .str "google"),
      ("model", .str "gemini-3-pro-preview"),
      ("usage", .obj [("input", .num 10), ("output", .num 20)])])])

/-- An assistant message line with no timestamp and a truthy usage object
carrying no token or cost key at all. -/
def noSignalLine : RawLine ℤ := .json (.obj
  [("type", .str "message"),
   ("message", .obj
     [("role", .str "assistant"), ("usage", .obj [("foo", .num 1)])])])

/-- The legacy flat-shaped event from §8 of the spec: top-level timestamp
alias and top-level `inputTokens`/`outputTokens`. -/
def flatLegacyLine : RawLine ℤ := .json (.obj
  [("ts", .str "2026-02-18T09:00:00Z"), ("model", .str "m"),
   ("inputTokens", .num 10), ("outputTokens", .num 5)])

/-- An environment with every provider credential set. -/
def envAll : Env := fun _ => "x"

/-- An environment with no provider credential set. -/
def envNone : Env := fun _ => ""

/-- A fixed current UTC `(date, hour)` for the concrete statements. -/
def nowFeb18 : String × ℕ := ("2026-02-18", 9)

/-- The empty store. -/
def emptyStore : Store ℤ := ⟨[], []⟩

/-- Whether a decoded message object has the assistant role. -/
def msgIsAssistant (msg : List (String × Json α)) : Bool :=
  match jlookup msg "role" with
  | some (.str r) => r = "assistant"
  | _ => false

/-- A non-message line carrying only a timestamp (session-header shaped). -/
def earlyLine : RawLine ℤ := .json (.obj
  [("type", .str "session"), ("timestamp", .str "2026-02-18T10:05:00Z")])

/-- The bucket invariant behind the billable-token figure: `real_tokens`
equals the sum of input and output tokens. -/
def BucketInv (b : Bucket α) : Prop :=
  b.real_tokens = b.input_tokens + b.output_tokens

/-- Session files exercising all three providers in one pass: one Kimi, one
Claude and one Gemini usage line, in separate files. -/
def triFiles : List (List (RawLine ℤ)) := [[kimiLine], [claudeLine], [geminiLine]]

/-- A parameter dict binding every named SQL parameter of the usage upsert. -/
def c4dict : List (String × Json ℤ) :=
  [("provider", .str "anthropic"), ("model", .str "claude-sonnet-4-6"),
   ("date", .str "2026-02-18"), ("hour", .num 10),
   ("input_tokens", .num 500), ("output_tokens", .num 200),
   ("cache_read_tokens", .num 0), ("cache_write_tokens", .num 0),
   ("real_tokens", .num 700), ("request_count", .num 1),
   ("estimated_cost_usd", .num 0), ("synced_at", .str "T")]

/-- Whether a sync outcome is not an uncaught exception. -/
def syncResNotRaised : SyncRes → Bool
  | .raised _ => false
  | _ => true

/-- An assistant usage line with numeric `input`/`output` but a JSON-null
`cacheRead`: the counter updates of `parse_sessions` raise mid-sequence at
the `cacheRead` step, after input and output were already added. -/
def partialLine : RawLine ℤ := .json (.obj
  [("type", .str "message"), ("timestamp", .str "2026-02-18T08:00:00Z"),
   ("message", .obj
     [("role", .str "assistant"), ("provider", .str "moonshot"),
      ("model", .str "kimi-k2.5"),
      ("usage", .obj
        [("input", .num 5), ("output", .num 3), ("cacheRead", .null)])])])

/-! ### Claim theorems -/

/-- Claim C2, counterexample: an assistant-message event with no timestamp and
a truthy `usage` object carrying no token or cost key — i.e. an event with "no
usable timestamp" and "no token/cost signal at all" — is not excluded by
`parse_sessions`: it produces a bucket, namely a zero-token, zero-cost row at
the fallback current date/hour with `request_count = 1`.  This refutes both
the claimed exclusion and the claimed "never creates a zero-valued bucket"
invariant. -/
theorem c2_zero_bucket_created :
    parse_sessions isoUtcParse nowFeb18 [[noSignalLine]] [] none none =
      [⟨"unknown", "unknown", "2026-02-18", 9, 0, 0, 0, 0, 0, 1, 0⟩] := by
  decide

/-- Claim C3, counterexample: the spec's legacy flat-shaped line (top-level
`ts`/`inputTokens`/`outputTokens`, no nested `message` object) yields no
aggregated record at all — `parse_sessions` has no top-level fallback for
token counts, so the claim that such a line "still yields its token counts"
fails on the code. -/
theorem c3_flat_line_yields_nothing :
    parse_sessions isoUtcParse nowFeb18 [[flatLegacyLine]] [] none none = [] := by
  decide

/-- Claim C7, counterexample: a file with one valid usage line and one
invalid-JSON line produces a result — including the `files_parsed` and
`records_found` counters, the only diagnostics the source keeps — identical
to the same file without the invalid line, and exactly one aggregated event.
The malformed line is indeed skipped without aborting, but it is *not*
"counted for diagnostics": no counter records it. -/
theorem c7_malformed_not_counted :
    parse_sessions_full isoUtcParse nowFeb18 [[kimiLine, .malformed]] [] none none =
      parse_sessions_full isoUtcParse nowFeb18 [[kimiLine]] [] none none ∧
    (parse_sessions_full isoUtcParse nowFeb18 [[kimiLine, .malformed]] [] none none).1.length
      = 1 := by
  exact ⟨by decide, by decide⟩

omit [AddCommMonoid α] [One α] [NatCast α] in
/-- Claim C6: when the registry lookup finds the named provider and that
provider reports itself unconfigured, `sync_provider` returns the "skipped"
status with the provider's display name and leaves the store — usage rows and
sync log alike — completely untouched. -/
theorem c6_unconfigured_skips_without_writes (ps : List (ProviderM α))
    (name syncedAt : String) (st : Store α) (p : ProviderM α)
    (hfind : ps.find? (fun q => q.name == name) = some p)
    (hconf : p.configured = false) :
    sync_provider ps name syncedAt st =
      (st, .statusMsg "skipped" (p.displayName ++ ": not configured — skipping")) := by
  simp [sync_provider, hfind, hconf]

theorem c6_witness :
    sync_provider (allProviders envNone isoUtcParse nowFeb18
        ([] : List (List (RawLine ℤ))) none none) "anthropic" "T" emptyStore
      = (emptyStore, .statusMsg "skipped" "Anthropic: not configured — skipping") := by
  have h := c6_unconfigured_skips_without_writes
    (allProviders envNone isoUtcParse nowFeb18 ([] : List (List (RawLine ℤ))) none none)
    "anthropic" "T" emptyStore
    ⟨"anthropic", "Anthropic", false, .ok []⟩ (by decide) (by decide)
  exact h.trans (by decide)

section ProcessRecordViews

variable (pdh : String → Option (String × ℕ)) (now : String × ℕ)
  (mp : List String) (sd ed : Option String)

theorem processRecord_msg_view (agg : AggList α) (found : ℕ)
    (kvs msg : List (String × Json α))
    (h1 : jlookup kvs "type" = some (.str "message"))
    (h2 : jlookup kvs "message" = some (.obj msg)) :
    processRecord pdh now mp sd ed agg found (.obj kvs) =
      (match jlookup msg "role" with
       | some (.str r) =>
         if r = "assistant" then
           match jlookup msg "usage" with
           | some u =>
             if u.truthy then processUsageMsg pdh now mp sd ed agg found kvs msg u
             else ((agg, found), true)
           | none => ((agg, found), true)
         else ((agg, found), true)
       | some _ => ((agg, found), true)
       | none => ((agg, found), true)) := by
  simp [processRecord, h1, h2]

theorem processRecord_no_msg (agg : AggList α) (found : ℕ)
    (kvs : List (String × Json α))
    (h2 : jlookup kvs "message" = none) :
    processRecord pdh now mp sd ed agg found (.obj kvs) = ((agg, found), true) := by
  cases ht : jlookup kvs "type" with
  | none => simp [processRecord, ht]
  | some v =>
    cases v with
    | str t =>
      by_cases hteq : t = "message"
      · subst hteq; simp [processRecord, ht, h2]
      · simp [processRecord, ht, hteq]
    | null => simp [processRecord, ht]
    | bool b => simp [processRecord, ht]
    | num q => simp [processRecord, ht]
    | obj kvs2 => simp [processRecord, ht]

theorem processRecord_unchanged_of_msg (agg : AggList α) (found : ℕ)
    (kvs msg : List (String × Json α))
    (h2 : jlookup kvs "message" = some (.obj msg))
    (hleaf : ∀ u, jlookup msg "usage" = some u → u.truthy = true →
       processUsageMsg pdh now mp sd ed agg found kvs msg u = ((agg, found), true)) :
    processRecord pdh now mp sd ed agg found (.obj kvs) = ((agg, found), true) := by
  cases ht : jlookup kvs "type" with
  | none => simp [processRecord, ht]
  | some v =>
    cases v with
    | str t =>
      by_cases hteq : t = "message"
      · subst hteq
        rw [processRecord_msg_view pdh now mp sd ed agg found kvs msg ht h2]
        cases hr : jlookup msg "role" with
        | none => simp
        | some rv =>
          cases rv with
          | str r =>
            by_cases hre : r = "assistant"
            · subst hre
              simp only [if_pos rfl]
              cases hus : jlookup msg "usage" with
              | none => simp
              | some u =>
                by_cases hut : u.truthy = true
                · simp [hut, hleaf u hus hut]
                · simp [Bool.not_eq_true] at hut
                  simp [hut]
            · simp [hre]
          | null => simp
          | bool b => simp
          | num q => simp
          | obj kvs2 => simp
      · simp [processRecord, ht, hteq]
    | null => simp [processRecord, ht]
    | bool b => simp [processRecord, ht]
    | num q => simp [processRecord, ht]
    | obj kvs2 => simp [processRecord, ht]

theorem processUsageMsg_ts_congr (agg : AggList α) (found : ℕ)
    (kvs1 kvs2 msg : List (String × Json α)) (u : Json α)
    (hts : tsDateHour pdh now kvs1 = tsDateHour pdh now kvs2) :
    processUsageMsg pdh now mp sd ed agg found kvs1 msg u =
      processUsageMsg pdh now mp sd ed agg found kvs2 msg u := by
  unfold processUsageMsg
  rw [hts]

theorem processRecord_congr_kvs (agg : AggList α) (found : ℕ)
    (kvs1 kvs2 : List (String × Json α))
    (hty : jlookup kvs1 "type" = jlookup kvs2 "type")
    (hmsg : jlookup kvs1 "message" = jlookup kvs2 "message")
    (hts : tsDateHour pdh now kvs1 = tsDateHour pdh now kvs2) :
    processRecord pdh now mp sd ed agg found (.obj kvs1) =
      processRecord pdh now mp sd ed agg found (.obj kvs2) := by
  cases ht : jlookup kvs2 "type" with
  | none => simp [processRecord, hty.trans ht, ht]
  | some v =>
    cases v with
    | str t =>
      by_cases hteq : t = "message"
      · subst hteq
        cases hm : jlookup kvs2 "message" with
        | none => simp [processRecord, hty.trans ht, ht, hmsg.trans hm, hm]
        | some mv =>
          cases mv with
          | obj msg =>
            rw [processRecord_msg_view pdh now mp sd ed agg found kvs1 msg
                  (hty.trans ht) (hmsg.trans hm),
                processRecord_msg_view pdh now mp sd ed agg found kvs2 msg ht hm]
            cases hr : jlookup msg "role" with
            | none => rfl
            | some rv =>
              cases rv with
              | str r =>
                by_cases hre : r = "assistant"
                · subst hre
                  simp only [if_pos rfl]
                  cases hus : jlookup msg "usage" with
                  | none => rfl
                  | some u =>
                    by_cases hut : u.truthy = true
                    · simp only [hut, if_pos rfl]
                      exact processUsageMsg_ts_congr pdh now mp sd ed agg found
                        kvs1 kvs2 msg u hts
                    · simp [Bool.not_eq_true] at hut
                      simp [hut]
                · simp [hre]
              | null => rfl
              | bool b => rfl
              | num q => rfl
              | obj kvs3 => rfl
          | null => simp [processRecord, hty.trans ht, ht, hmsg.trans hm, hm]
          | bool b => simp [processRecord, hty.trans ht, ht, hmsg.trans hm, hm]
          | num q => simp [processRecord, hty.trans ht, ht, hmsg.trans hm, hm]
          | str s => simp [processRecord, hty.trans ht, ht, hmsg.trans hm, hm]
      · simp [processRecord, hty.trans ht, ht, hteq]
    | null => simp [processRecord, hty.trans ht, ht]
    | bool b => simp [processRecord, hty.trans ht, ht]
    | num q => simp [processRecord, hty.trans ht, ht]
    | obj kvs3 => simp [processRecord, hty.trans ht, ht]

end ProcessRecordViews

/-- Claim C2, amended: the filters that do exclude an event from every bucket
are the model-prefix filter, the inclusive date-range filter (applied to the
date derived after timestamp fallback), and an absent or falsy `usage` field.
An event with no usable timestamp is *not* excluded: its bucket date and hour
are the fallback current pair `now` (conjunct four), and an event whose
truthy usage object carries no token or cost key still creates a zero-valued
bucket (see the counterexample). -/
theorem c2_surviving_filters (pdh : String → Option (String × ℕ))
    (now : String × ℕ) (mp : List String) (sd ed : Option String)
    (agg : AggList α) (found : ℕ) :
    (∀ kvs msg : List (String × Json α),
      (jlookup kvs "message" = none ∧ msg = [] ∨
        jlookup kvs "message" = some (.obj msg)) →
      (∀ u, jlookup msg "usage" = some u → u.truthy = false) →
      processRecord pdh now mp sd ed agg found (.obj kvs) = ((agg, found), true)) ∧
    (∀ (kvs msg : List (String × Json α)) (provider model : String),
      jlookup kvs "message" = some (.obj msg) →
      strOrD msg "provider" "unknown" = some provider →
      strOrD msg "model" "unknown" = some model →
      prefixSkip mp model = true →
      processRecord pdh now mp sd ed agg found (.obj kvs) = ((agg, found), true)) ∧
    (∀ (kvs msg : List (String × Json α)) (provider model : String),
      jlookup kvs "message" = some (.obj msg) →
      strOrD msg "provider" "unknown" = some provider →
      strOrD msg "model" "unknown" = some model →
      dateSkip sd ed (tsDateHour pdh now kvs).1 = true →
      processRecord pdh now mp sd ed agg found (.obj kvs) = ((agg, found), true)) ∧
    (∀ kvs : List (String × Json α),
      jlookup kvs "timestamp" = none →
      tsDateHour pdh now kvs = (pdh "").getD now) := by
  refine ⟨?_, ?_, ?_, ?_⟩
  · intro kvs msg hm hu
    rcases hm with ⟨hm1, _⟩ | hm
    · exact processRecord_no_msg pdh now mp sd ed agg found kvs hm1
    · refine processRecord_unchanged_of_msg pdh now mp sd ed agg found kvs msg hm ?_
      intro u hus hut
      rw [hu u hus] at hut
      cases hut
  · intro kvs msg provider model hm hp hmod hpre
    refine processRecord_unchanged_of_msg pdh now mp sd ed agg found kvs msg hm ?_
    intro u hus hut
    simp [processUsageMsg, hp, hmod, hpre]
  · intro kvs msg provider model hm hp hmod hds
    refine processRecord_unchanged_of_msg pdh now mp sd ed agg found kvs msg hm ?_
    intro u hus hut
    by_cases hpre : prefixSkip mp model = true
    · simp [processUsageMsg, hp, hmod, hpre]
    · simp [Bool.not_eq_true] at hpre
      simp [processUsageMsg, hp, hmod, hpre, hds]
  · intro kvs hts
    simp [tsDateHour, hts, parse_date_hour]

theorem c2_surviving_filters_witness :
    processRecord isoUtcParse nowFeb18 [] none none ([] : AggList ℤ) 0
      (.obj [("type", .str "message")]) = (([], 0), true) ∧
    processRecord isoUtcParse nowFeb18 ["kimi-"] none none ([] : AggList ℤ) 0
      (.obj [("type", .str "message"),
             ("message", .obj [("role", .str "assistant"),
                ("model", .str "claude-sonnet-4-6"),
                ("usage", .obj [("input", .num 5)])])]) = (([], 0), true) ∧
    processRecord isoUtcParse nowFeb18 [] (some "2026-03-01") none
      ([] : AggList ℤ) 0
      (.obj [("type", .str "message"), ("timestamp", .str "2026-02-18T08:00:00Z"),
             ("message", .obj [("role", .str "assistant"),
                ("model", .str "claude-sonnet-4-6"),
                ("usage", .obj [("input", .num 5)])])]) = (([], 0), true) ∧
    tsDateHour isoUtcParse nowFeb18 ([("type", .str "message")] : List (String × Json ℤ))
      = ("2026-02-18", 9) := by
  refine ⟨?_, ?_, ?_, ?_⟩
  · exact (c2_surviving_filters isoUtcParse nowFeb18 [] none none ([] : AggList ℤ) 0).1
      [("type", .str "message")] [] (Or.inl ⟨rfl, rfl⟩) (by intro u h; cases h)
  · exact (c2_surviving_filters isoUtcParse nowFeb18 ["kimi-"] none none
        ([] : AggList ℤ) 0).2.1
      [("type", .str "message"),
       ("message", .obj [("role", .str "assistant"),
          ("model", .str "claude-sonnet-4-6"),
          ("usage", .obj [("input", .num 5)])])]
      [("role", .str "assistant"), ("model", .str "claude-sonnet-4-6"),
       ("usage", .obj [("input", .num 5)])]
      "unknown" "claude-sonnet-4-6"
      (by decide) (by decide) (by decide) (by decide)
  · exact (c2_surviving_filters isoUtcParse nowFeb18 [] (some "2026-03-01") none
        ([] : AggList ℤ) 0).2.2.1
      [("type", .str "message"), ("timestamp", .str "2026-02-18T08:00:00Z"),
       ("message", .obj [("role", .str "assistant"),
          ("model", .str "claude-sonnet-4-6"),
          ("usage", .obj [("input", .num 5)])])]
      [("role", .str "assistant"), ("model", .str "claude-sonnet-4-6"),
       ("usage", .obj [("input", .num 5)])]
      "unknown" "claude-sonnet-4-6"
      (by decide) (by decide) (by decide) (by decide)
  · exact ((c2_surviving_filters isoUtcParse nowFeb18 [] none none
        ([] : AggList ℤ) 0).2.2.2 [("type", .str "message")] (by decide)).trans
      (by decide)

/-- Claim C3, amended: token counts are read only from the nested `usage`
object's exact keys (`input`, `output`, `cacheRead`, `cacheWrite`), each
defaulting to zero; there is no alias list and no top-level fallback.  A
flat/legacy-shaped line — one with no `message` key — contributes nothing
(first conjunct), and a top-level `inputTokens` field is entirely invisible
to the extractor: adding one to any record never changes the result (second
conjunct). -/
theorem c3_no_toplevel_fallback (pdh : String → Option (String × ℕ))
    (now : String × ℕ) (mp : List String) (sd ed : Option String)
    (agg : AggList α) (found : ℕ) :
    (∀ kvs : List (String × Json α),
      jlookup kvs "message" = none →
      processRecord pdh now mp sd ed agg found (.obj kvs) = ((agg, found), true)) ∧
    (∀ (kvs : List (String × Json α)) (v : Json α),
      processRecord pdh now mp sd ed agg found (.obj (("inputTokens", v) :: kvs)) =
        processRecord pdh now mp sd ed agg found (.obj kvs)) := by
  constructor
  · intro kvs hm
    exact processRecord_no_msg pdh now mp sd ed agg found kvs hm
  · intro kvs v
    refine processRecord_congr_kvs pdh now mp sd ed agg found _ kvs ?_ ?_ ?_
    · simp [jlookup]
    · simp [jlookup]
    · simp [tsDateHour, jlookup]

theorem c3_no_toplevel_fallback_witness :
    processRecord isoUtcParse nowFeb18 [] none none ([] : AggList ℤ) 0
      (.obj [("ts", .str "2026-02-18T09:00:00Z"), ("model", .str "m"),
             ("inputTokens", .num 10), ("outputTokens", .num 5)]) = (([], 0), true) ∧
    processRecord isoUtcParse nowFeb18 [] none none ([] : AggList ℤ) 0
      (.obj [("inputTokens", .num 10), ("type", .str "message")]) =
      processRecord isoUtcParse nowFeb18 [] none none ([] : AggList ℤ) 0
        (.obj [("type", .str "message")]) := by
  constructor
  · exact (c3_no_toplevel_fallback isoUtcParse nowFeb18 [] none none
      ([] : AggList ℤ) 0).1 _ (by decide)
  · exact (c3_no_toplevel_fallback isoUtcParse nowFeb18 [] none none
      ([] : AggList ℤ) 0).2 [("type", .str "message")] (.num 10)

theorem processLines_drop_malformed (pdh : String → Option (String × ℕ))
    (now : String × ℕ) (mp : List String) (sd ed : Option String) :
    ∀ (pre : List (RawLine α)) (agg : AggList α) (found : ℕ)
      (post : List (RawLine α)),
      processLines pdh now mp sd ed agg found (pre ++ .malformed :: post) =
        processLines pdh now mp sd ed agg found (pre ++ post) := by
  intro pre
  induction pre with
  | nil => intro agg found post; rfl
  | cons l pre ih =>
    intro agg found post
    cases l with
    | blank => exact ih agg found post
    | malformed => exact ih agg found post
    | json j =>
      simp only [List.cons_append, processLines]
      cases hpr : processRecord pdh now mp sd ed agg found j with
      | mk r rok =>
        obtain ⟨agg2, f2⟩ := r
        cases rok with
        | false => rfl
        | true => exact ih agg2 f2 post

/-- Claim C7, amended: a line that is not valid JSON is skipped silently and
never aborts processing of the remaining lines — inserting a malformed line
anywhere in any file leaves the entire result of `parse_sessions`, including
every diagnostic counter, unchanged.  (In particular one valid usage line
plus one invalid line yields exactly one aggregated event, and nothing is
raised.)  Contrary to the claim, the malformed line is not counted anywhere:
no diagnostic reflects it. -/
theorem c7_malformed_skipped_silently (pdh : String → Option (String × ℕ))
    (now : String × ℕ) (mp : List String) (sd ed : Option String)
    (fs1 fs2 : List (List (RawLine α))) (pre post : List (RawLine α)) :
    parse_sessions_full pdh now (fs1 ++ (pre ++ .malformed :: post) :: fs2) mp sd ed =
      parse_sessions_full pdh now (fs1 ++ (pre ++ post) :: fs2) mp sd ed := by
  unfold parse_sessions_full
  suffices h : ∀ (agg : AggList α) (found fp : ℕ),
      runFiles pdh now mp sd ed agg found fp
          (fs1 ++ (pre ++ .malformed :: post) :: fs2) =
        runFiles pdh now mp sd ed agg found fp (fs1 ++ (pre ++ post) :: fs2) by
    rw [h]
  intro agg found fp
  induction fs1 generalizing agg found fp with
  | nil =>
    simp only [List.nil_append, runFiles]
    rw [processLines_drop_malformed]
  | cons f fs ih =>
    simp only [List.cons_append, runFiles]
    cases hpl : processLines pdh now mp sd ed agg found f with
    | mk a ok =>
      obtain ⟨agg2, f2⟩ := a
      exact ih agg2 f2 _

lemma bumpSteps_ok_inv (b : Bucket α) (it ot crt cwt rt : Json α) (cost : α)
    (b2 : Bucket α) (hpy : pyAdd it ot = some rt)
    (h : b.bumpSteps it ot crt cwt rt cost = (b2, true)) (hb : BucketInv b) :
    BucketInv b2 := by
  unfold Bucket.bumpSteps at h
  cases hit : asNum? it with
  | none =>
    simp only [hit] at h
    exact absurd (congrArg (fun x => x.2) h) (by simp)
  | some i =>
    simp only [hit] at h
    cases hot : asNum? ot with
    | none =>
      simp only [hot] at h
      exact absurd (congrArg (fun x => x.2) h) (by simp)
    | some o =>
      simp only [hot] at h
      cases hcr : asNum? crt with
      | none =>
        simp only [hcr] at h
        exact absurd (congrArg (fun x => x.2) h) (by simp)
      | some cr =>
        simp only [hcr] at h
        cases hcw : asNum? cwt with
        | none =>
          simp only [hcw] at h
          exact absurd (congrArg (fun x => x.2) h) (by simp)
        | some cw =>
          simp only [hcw] at h
          cases hrt : asNum? rt with
          | none =>
            simp only [hrt] at h
            exact absurd (congrArg (fun x => x.2) h) (by simp)
          | some rr =>
            simp only [hrt] at h
            injection h with h1 h2
            subst h1
            have hpy2 : pyAdd it ot = some (Json.num (i + o)) := by
              simp [pyAdd, hit, hot]
            have hrteq : Json.num (i + o) = rt :=
              Option.some.inj (hpy2.symm.trans hpy)
            have hr : rr = i + o := by
              rw [← hrteq] at hrt
              simp only [asNum?] at hrt
              exact (Option.some.inj hrt).symm
            subst hr
            unfold BucketInv at hb ⊢
            simp only []
            rw [hb]
            exact add_add_add_comm _ _ _ _

lemma aggBump_ok_inv (agg : AggList α) (key : AggKey)
    (it ot crt cwt rt : Json α) (cost : α) (agg2 : AggList α)
    (hpy : pyAdd it ot = some rt)
    (h : aggBump agg key it ot crt cwt rt cost = (agg2, true))
    (hinv : ∀ kb ∈ agg, BucketInv kb.2) :
    ∀ kb ∈ agg2, BucketInv kb.2 := by
  induction agg generalizing agg2 with
  | nil =>
    rw [aggBump] at h
    cases hbs : Bucket.zero.bumpSteps it ot crt cwt rt cost with
    | mk b bok =>
      rw [hbs] at h
      injection h with h1 h2
      subst h1
      subst h2
      intro kb hkb
      simp only [List.mem_singleton] at hkb
      subst hkb
      exact bumpSteps_ok_inv Bucket.zero it ot crt cwt rt cost b hpy hbs
        (by simp [BucketInv, Bucket.zero])
  | cons e rest ih =>
    obtain ⟨k, b⟩ := e
    rw [aggBump] at h
    by_cases hk : k = key
    · rw [if_pos hk] at h
      cases hbs : b.bumpSteps it ot crt cwt rt cost with
      | mk b2 bok =>
        rw [hbs] at h
        injection h with h1 h2
        subst h1
        subst h2
        intro kb hkb
        rcases List.mem_cons.mp hkb with rfl | hmem
        · exact bumpSteps_ok_inv b it ot crt cwt rt cost b2 hpy hbs
            (hinv (k, b) (List.mem_cons_self _ _))
        · exact hinv kb (List.mem_cons_of_mem _ hmem)
    · rw [if_neg hk] at h
      cases hab : aggBump rest key it ot crt cwt rt cost with
      | mk rest2 rok =>
        rw [hab] at h
        injection h with h1 h2
        subst h1
        subst h2
        intro kb hkb
        rcases List.mem_cons.mp hkb with rfl | hmem
        · exact hinv (k, b) (List.mem_cons_self _ _)
        · exact ih rest2 hab
            (fun kb2 hkb2 => hinv kb2 (List.mem_cons_of_mem _ hkb2)) kb hmem

theorem processUsageMsg_shape (pdh : String → Option (String × ℕ))
    (now : String × ℕ) (mp : List String) (sd ed : Option String)
    (agg : AggList α) (found : ℕ) (kvs msg : List (String × Json α)) (u : Json α)
    (agg2 : AggList α) (f2 : ℕ) (ok : Bool)
    (h : processUsageMsg pdh now mp sd ed agg found kvs msg u = ((agg2, f2), ok)) :
    agg2 = agg ∨ ∃ key it ot crt cwt rt c, pyAdd it ot = some rt ∧
      aggBump agg key it ot crt cwt rt c = (agg2, ok) := by
  unfold processUsageMsg at h
  cases hsp : strOrD msg "provider" "unknown" with
  | none =>
    rw [hsp] at h
    exact Or.inl (congrArg (fun x => x.1.1) h).symm
  | some provider =>
    rw [hsp] at h
    cases hsm : strOrD msg "model" "unknown" with
    | none =>
      rw [hsm] at h
      exact Or.inl (congrArg (fun x => x.1.1) h).symm
    | some model =>
      rw [hsm] at h
      dsimp only at h
      by_cases hpre : prefixSkip mp model
      · rw [if_pos hpre] at h
        exact Or.inl (congrArg (fun x => x.1.1) h).symm
      · rw [if_neg hpre] at h
        by_cases hds : dateSkip sd ed (tsDateHour pdh now kvs).1
        · rw [if_pos hds] at h
          exact Or.inl (congrArg (fun x => x.1.1) h).symm
        · rw [if_neg hds] at h
          cases u with
          | obj uo =>
            dsimp only at h
            cases hcs : costSum (jlookup uo "cost") with
            | none =>
              rw [hcs] at h
              exact Or.inl (congrArg (fun x => x.1.1) h).symm
            | some cost =>
              rw [hcs] at h
              dsimp only at h
              cases hpy : pyAdd ((jlookup uo "input").getD (Json.num 0))
                  ((jlookup uo "output").getD (Json.num 0)) with
              | none =>
                rw [hpy] at h
                exact Or.inl (congrArg (fun x => x.1.1) h).symm
              | some rt =>
                rw [hpy] at h
                dsimp only at h
                cases hab : aggBump agg
                    (provider, model, (tsDateHour pdh now kvs).1,
                      (tsDateHour pdh now kvs).2)
                    ((jlookup uo "input").getD (Json.num 0))
                    ((jlookup uo "output").getD (Json.num 0))
                    ((jlookup uo "cacheRead").getD (Json.num 0))
                    ((jlookup uo "cacheWrite").getD (Json.num 0)) rt cost with
                | mk agg3 rok =>
                  rw [hab] at h
                  cases rok with
                  | true =>
                    refine Or.inr ⟨(provider, model, (tsDateHour pdh now kvs).1,
                        (tsDateHour pdh now kvs).2),
                      (jlookup uo "input").getD (Json.num 0),
                      (jlookup uo "output").getD (Json.num 0),
                      (jlookup uo "cacheRead").getD (Json.num 0),
                      (jlookup uo "cacheWrite").getD (Json.num 0),
                      rt, cost, hpy, ?_⟩
                    rw [hab]
                    have h1 : agg3 = agg2 := congrArg (fun x => x.1.1) h
                    have h2 : ok = true := (congrArg (fun x => x.2) h).symm
                    rw [h1, h2]
                  | false =>
                    refine Or.inr ⟨(provider, model, (tsDateHour pdh now kvs).1,
                        (tsDateHour pdh now kvs).2),
                      (jlookup uo "input").getD (Json.num 0),
                      (jlookup uo "output").getD (Json.num 0),
                      (jlookup uo "cacheRead").getD (Json.num 0),
                      (jlookup uo "cacheWrite").getD (Json.num 0),
                      rt, cost, hpy, ?_⟩
                    rw [hab]
                    have h1 : agg3 = agg2 := congrArg (fun x => x.1.1) h
                    have h2 : ok = false := (congrArg (fun x => x.2) h).symm
                    rw [h1, h2]
          | null =>
            dsimp only at h
            exact Or.inl (congrArg (fun x => x.1.1) h).symm
          | bool b =>
            dsimp only at h
            exact Or.inl (congrArg (fun x => x.1.1) h).symm
          | num q =>
            dsimp only at h
            exact Or.inl (congrArg (fun x => x.1.1) h).symm
          | str s2 =>
            dsimp only at h
            exact Or.inl (congrArg (fun x => x.1.1) h).symm

theorem processRecord_shape (pdh : String → Option (String × ℕ))
    (now : String × ℕ) (mp : List String) (sd ed : Option String)
    (agg : AggList α) (found : ℕ) (j : Json α)
    (agg2 : AggList α) (f2 : ℕ) (ok : Bool)
    (h : processRecord pdh now mp sd ed agg found j = ((agg2, f2), ok)) :
    agg2 = agg ∨ ∃ key it ot crt cwt rt c, pyAdd it ot = some rt ∧
      aggBump agg key it ot crt cwt rt c = (agg2, ok) := by
  unfold processRecord at h
  split at h
  · split at h
    · split at h
      · split at h
        · split at h
          · split at h
            · split at h
              · split at h
                · exact processUsageMsg_shape pdh now mp sd ed agg found _ _ _
                    agg2 f2 ok h
                · exact Or.inl (congrArg (fun x => x.1.1) h).symm
              · exact Or.inl (congrArg (fun x => x.1.1) h).symm
            · exact Or.inl (congrArg (fun x => x.1.1) h).symm
          · exact Or.inl (congrArg (fun x => x.1.1) h).symm
          · exact Or.inl (congrArg (fun x => x.1.1) h).symm
        · exact Or.inl (congrArg (fun x => x.1.1) h).symm
        · exact Or.inl (congrArg (fun x => x.1.1) h).symm
      · exact Or.inl (congrArg (fun x => x.1.1) h).symm
    · exact Or.inl (congrArg (fun x => x.1.1) h).symm
    · exact Or.inl (congrArg (fun x => x.1.1) h).symm
  · exact Or.inl (congrArg (fun x => x.1.1) h).symm

theorem processRecord_ok_inv (pdh : String → Option (String × ℕ))
    (now : String × ℕ) (mp : List String) (sd ed : Option String)
    (agg : AggList α) (found : ℕ) (j : Json α) (agg2 : AggList α) (f2 : ℕ)
    (h : processRecord pdh now mp sd ed agg found j = ((agg2, f2), true))
    (hinv : ∀ kb ∈ agg, BucketInv kb.2) :
    ∀ kb ∈ agg2, BucketInv kb.2 := by
  rcases processRecord_shape pdh now mp sd ed agg found j agg2 f2 true h with
    rfl | ⟨k, it, ot, crt, cwt, rt, c, hpy, hab⟩
  · exact hinv
  · exact aggBump_ok_inv agg k it ot crt cwt rt c agg2 hpy hab hinv

theorem processLines_ok_inv (pdh : String → Option (String × ℕ))
    (now : String × ℕ) (mp : List String) (sd ed : Option String) :
    ∀ (lines : List (RawLine α)) (agg : AggList α) (found : ℕ)
      (agg2 : AggList α) (f2 : ℕ),
      processLines pdh now mp sd ed agg found lines = ((agg2, f2), true) →
      (∀ kb ∈ agg, BucketInv kb.2) → ∀ kb ∈ agg2, BucketInv kb.2 := by
  intro lines
  induction lines with
  | nil =>
    intro agg found agg2 f2 h hinv
    rw [processLines] at h
    have h1 : agg = agg2 := congrArg (fun x => x.1.1) h
    exact h1 ▸ hinv
  | cons l rest ih =>
    intro agg found agg2 f2 h hinv
    cases l with
    | blank => exact ih agg found agg2 f2 h hinv
    | malformed => exact ih agg found agg2 f2 h hinv
    | json j =>
      rw [processLines] at h
      cases hpr : processRecord pdh now mp sd ed agg found j with
      | mk r rok =>
        rw [hpr] at h
        obtain ⟨agg3, f3⟩ := r
        cases rok with
        | false =>
          exact absurd (congrArg (fun x => x.2) h) (by simp)
        | true =>
          exact ih agg3 f3 agg2 f2 h
            (processRecord_ok_inv pdh now mp sd ed agg found j agg3 f3 hpr hinv)

theorem runFiles_fp_le (pdh : String → Option (String × ℕ))
    (now : String × ℕ) (mp : List String) (sd ed : Option String) :
    ∀ (files : List (List (RawLine α))) (agg : AggList α) (found fp : ℕ),
      (runFiles pdh now mp sd ed agg found fp files).2.2 ≤ fp + files.length := by
  intro files
  induction files with
  | nil => intro agg found fp; simp [runFiles]
  | cons f fs ih =>
    intro agg found fp
    rw [runFiles]
    cases hpl : processLines pdh now mp sd ed agg found f with
    | mk a ok =>
      obtain ⟨agg2, f2⟩ := a
      refine le_trans (ih agg2 f2 _) ?_
      cases ok <;> (simp [List.length_cons]; try omega)

theorem runFiles_ok_inv (pdh : String → Option (String × ℕ))
    (now : String × ℕ) (mp : List String) (sd ed : Option String) :
    ∀ (files : List (List (RawLine α))) (agg : AggList α) (found fp : ℕ),
      (runFiles pdh now mp sd ed agg found fp files).2.2 = fp + files.length →
      (∀ kb ∈ agg, BucketInv kb.2) →
      ∀ kb ∈ (runFiles pdh now mp sd ed agg found fp files).1, BucketInv kb.2 := by
  intro files
  induction files with
  | nil => intro agg found fp hfp hinv; exact hinv
  | cons f fs ih =>
    intro agg found fp hfp hinv
    rw [runFiles] at hfp ⊢
    cases hpl : processLines pdh now mp sd ed agg found f with
    | mk a ok =>
      obtain ⟨agg2, f2⟩ := a
      rw [hpl] at hfp
      cases ok with
      | false =>
        exfalso
        have hle := runFiles_fp_le pdh now mp sd ed fs agg2 f2 (fp + 0)
        have hfp2 : (runFiles pdh now mp sd ed agg2 f2 (fp + 0) fs).2.2
            = fp + (fs.length + 1) := by
          simpa [List.length_cons] using hfp
        omega
      | true =>
        refine ih agg2 f2 (fp + 1) ?_ ?_
        · have : (runFiles pdh now mp sd ed agg2 f2 (fp + 1) fs).2.2
              = fp + (fs.length + 1) := by
            simpa [List.length_cons] using hfp
          omega
        · exact processLines_ok_inv pdh now mp sd ed f agg found agg2 f2 hpl hinv

/-- Claim C10, counterexample: a line with numeric `input`/`output` but a
JSON-null `cacheRead` raises mid-update — after the input/output `+=` and
before the `real_tokens` one — and the per-file handler keeps the partial
bucket, which is emitted with `real_tokens = 0 ≠ input + output`.  The
claimed invariant fails on the program. -/
theorem c10_partial_bucket :
    parse_sessions isoUtcParse nowFeb18 [[partialLine]] [] none none =
      [⟨"moonshot", "kimi-k2.5", "2026-02-18", 8, 5, 3, 0, 0, 0, 0, 0⟩] ∧
    ∃ r ∈ parse_sessions isoUtcParse nowFeb18 [[partialLine]] [] none none,
      ¬ r.real_tokens = r.input_tokens + r.output_tokens :=
  ⟨by decide, by decide⟩

/-- Claim C10, amended: in every run in which each file completes without an
exception — observable as `files_parsed` equalling the number of files —
every emitted bucket satisfies `real_tokens = input_tokens + output_tokens`,
cache-read and cache-write tokens excluded by construction.  Without that
proviso the invariant can fail: a counter `+=` that raises mid-update leaves
a partially-mutated bucket in the output (see the counterexample). -/
theorem c10_real_tokens_billable (pdh : String → Option (String × ℕ))
    (now : String × ℕ) (files : List (List (RawLine α)))
    (mp : List String) (sd ed : Option String) (r : SessionRec α)
    (hok : (parse_sessions_full pdh now files mp sd ed).2.1 = files.length)
    (hr : r ∈ parse_sessions pdh now files mp sd ed) :
    r.real_tokens = r.input_tokens + r.output_tokens := by
  unfold parse_sessions at hr
  unfold parse_sessions_full at hr hok
  set agg3 := runFiles pdh now mp sd ed [] 0 0 files with hagg
  obtain ⟨agg, found, fp⟩ := agg3
  simp only [] at hok
  simp only [List.mem_map] at hr
  obtain ⟨kb, hkb, rfl⟩ := hr
  have hmem : kb ∈ agg := ((List.perm_insertionSort entryLe agg).mem_iff).mp hkb
  have hfp : (runFiles pdh now mp sd ed [] 0 0 files).2.2 = 0 + files.length := by
    rw [← hagg]
    simpa using hok
  have hinv : ∀ kb2 ∈ agg, BucketInv kb2.2 := by
    have hrf := runFiles_ok_inv pdh now mp sd ed files [] 0 0 hfp
      (by intro kb2 hkb2; cases hkb2)
    rw [← hagg] at hrf
    exact hrf
  have hb := hinv kb hmem
  obtain ⟨⟨p, m, d, hh⟩, b⟩ := kb
  exact hb

theorem c10_witness :
    (⟨"moonshot", "kimi-k2.5", "2026-02-18", 8, 100, 50, 7, 3, 150, 1, 3⟩ : SessionRec ℤ)
        ∈ parse_sessions isoUtcParse nowFeb18 [[kimiLine]] [] none none ∧
    (parse_sessions_full isoUtcParse nowFeb18 [[kimiLine]] [] none none).2.1 = 1 ∧
    (150 : ℤ) = 100 + 50 := by
  refine ⟨by decide, by decide, ?_⟩
  exact c10_real_tokens_billable isoUtcParse nowFeb18 [[kimiLine]] [] none none
    ⟨"moonshot", "kimi-k2.5", "2026-02-18", 8, 100, 50, 7, 3, 150, 1, 3⟩
    (by decide) (by decide)

theorem keyL_inj (k1 k2 : AggKey) (h : keyL k1 = keyL k2) : k1 = k2 := by
  obtain ⟨a, b, c, d⟩ := k1
  obtain ⟨a2, b2, c2, d2⟩ := k2
  simp only [keyL, toLex_inj, Prod.mk.injEq] at h
  obtain ⟨h1, h2, h3, h4⟩ := h
  simp [h1, h2, h3, h4]

theorem aggBump_keys (agg : AggList α) (key : AggKey)
    (it ot crt cwt rt : Json α) (c : α) :
    ((aggBump agg key it ot crt cwt rt c).1).map Prod.fst =
      if key ∈ agg.map Prod.fst then agg.map Prod.fst
      else agg.map Prod.fst ++ [key] := by
  induction agg with
  | nil =>
    rw [aggBump]
    cases hbs : Bucket.zero.bumpSteps it ot crt cwt rt c with
    | mk b bok => simp
  | cons e rest ih =>
    obtain ⟨k, b⟩ := e
    rw [aggBump]
    by_cases hk : k = key
    · subst hk
      rw [if_pos rfl]
      cases hbs : b.bumpSteps it ot crt cwt rt c with
      | mk b2 bok => simp
    · rw [if_neg hk]
      cases hab : aggBump rest key it ot crt cwt rt c with
      | mk rest2 rok =>
        rw [hab] at ih
        have hne : key ≠ k := fun h2 => hk h2.symm
        by_cases hmem : key ∈ rest.map Prod.fst
        · simp only [hmem, if_pos] at ih
          simp [hne, hmem, ih]
        · simp only [hmem, if_neg, if_false] at ih
          simp [hne, hmem, ih]

theorem aggBump_keys_nodup (agg : AggList α) (key : AggKey)
    (it ot crt cwt rt : Json α) (c : α)
    (h : (agg.map Prod.fst).Nodup) :
    (((aggBump agg key it ot crt cwt rt c).1).map Prod.fst).Nodup := by
  rw [aggBump_keys]
  by_cases hmem : key ∈ agg.map Prod.fst
  · simpa [hmem] using h
  · simp [hmem, List.nodup_append, h]

theorem processRecord_keys_nodup (pdh : String → Option (String × ℕ))
    (now : String × ℕ) (mp : List String) (sd ed : Option String)
    (agg : AggList α) (found : ℕ) (j : Json α) (agg2 : AggList α) (f2 : ℕ)
    (ok : Bool)
    (h : processRecord pdh now mp sd ed agg found j = ((agg2, f2), ok))
    (hn : (agg.map Prod.fst).Nodup) :
    (agg2.map Prod.fst).Nodup := by
  rcases processRecord_shape pdh now mp sd ed agg found j agg2 f2 ok h with
    rfl | ⟨k, it, ot, crt, cwt, rt, c, hpy, hab⟩
  · exact hn
  · have hh := aggBump_keys_nodup agg k it ot crt cwt rt c hn
    rw [hab] at hh
    exact hh

theorem processLines_keys_nodup (pdh : String → Option (String × ℕ))
    (now : String × ℕ) (mp : List String) (sd ed : Option String) :
    ∀ (lines : List (RawLine α)) (agg : AggList α) (found : ℕ),
      (agg.map Prod.fst).Nodup →
      (((processLines pdh now mp sd ed agg found lines).1.1).map Prod.fst).Nodup := by
  intro lines
  induction lines with
  | nil => intro agg found hn; exact hn
  | cons l rest ih =>
    intro agg found hn
    cases l with
    | blank => exact ih agg found hn
    | malformed => exact ih agg found hn
    | json j =>
      simp only [processLines]
      cases hpr : processRecord pdh now mp sd ed agg found j with
      | mk p rok =>
        obtain ⟨agg2, f2⟩ := p
        have hrec := processRecord_keys_nodup pdh now mp sd ed agg found j
          agg2 f2 rok hpr hn
        cases rok with
        | false => exact hrec
        | true => exact ih agg2 f2 hrec

theorem runFiles_keys_nodup (pdh : String → Option (String × ℕ))
    (now : String × ℕ) (mp : List String) (sd ed : Option String) :
    ∀ (files : List (List (RawLine α))) (agg : AggList α) (found fp : ℕ),
      (agg.map Prod.fst).Nodup →
      (((runFiles pdh now mp sd ed agg found fp files).1).map Prod.fst).Nodup := by
  intro files
  induction files with
  | nil => intro agg found fp hn; exact hn
  | cons f fs ih =>
    intro agg found fp hn
    simp only [runFiles]
    cases hpl : processLines pdh now mp sd ed agg found f with
    | mk a ok =>
      obtain ⟨agg2, f2⟩ := a
      refine ih agg2 f2 _ ?_
      have hstep := processLines_keys_nodup pdh now mp sd ed f agg found hn
      rw [hpl] at hstep
      exact hstep

theorem pairwise_lt_of_sorted_nodup (l : AggList α)
    (hs : l.Pairwise entryLe) (hn : (l.map Prod.fst).Nodup) :
    l.Pairwise (fun a b => keyL a.1 < keyL b.1) := by
  induction l with
  | nil => exact List.Pairwise.nil
  | cons a l ih =>
    rw [List.pairwise_cons] at hs
    obtain ⟨ha, hp⟩ := hs
    rw [List.map_cons, List.nodup_cons] at hn
    obtain ⟨hnot, hnd⟩ := hn
    refine List.Pairwise.cons ?_ (ih hp hnd)
    intro b hb
    refine lt_of_le_of_ne (ha b hb) ?_
    intro heq
    exact hnot (keyL_inj a.1 b.1 heq ▸ List.mem_map_of_mem Prod.fst hb)

/-- Claim C9: the output of the bucketed aggregator is strictly ascending in
the composite key `(provider, model, date, hour)` under the lexicographic
tuple order Python's `sorted` uses — so it is sorted, and no two records
share a composite key. -/
theorem c9_sorted_unique_keys (pdh : String → Option (String × ℕ))
    (now : String × ℕ) (files : List (List (RawLine α)))
    (mp : List String) (sd ed : Option String) :
    (parse_sessions pdh now files mp sd ed).Pairwise
      (fun a b => recKey a < recKey b) := by
  unfold parse_sessions parse_sessions_full
  set agg3 := runFiles pdh now mp sd ed [] 0 0 files with hagg
  obtain ⟨agg, found, fp⟩ := agg3
  simp only []
  have hnodup : ((List.insertionSort entryLe agg).map Prod.fst).Nodup := by
    have hperm : List.Perm (List.insertionSort entryLe agg) agg :=
      List.perm_insertionSort _ _
    have hn : (agg.map Prod.fst).Nodup := by
      have hrf := runFiles_keys_nodup pdh now mp sd ed files [] 0 0 (by simp)
      rw [← hagg] at hrf
      exact hrf
    exact ((hperm.map Prod.fst).nodup_iff).mpr hn
  have hsorted : List.Pairwise entryLe (List.insertionSort entryLe agg) :=
    List.sorted_insertionSort entryLe agg
  have hpl := pairwise_lt_of_sorted_nodup _ hsorted hnodup
  rw [List.pairwise_map]
  refine hpl.imp ?_
  intro a b hab
  obtain ⟨⟨p1, m1, d1, h1⟩, b1⟩ := a
  obtain ⟨⟨p2, m2, d2, h2⟩, b2⟩ := b
  exact hab

theorem charListLt_iff : ∀ l1 l2 : List Char, charListLt l1 l2 = true ↔ l1 < l2 := by
  intro l1
  induction l1 with
  | nil =>
    intro l2
    cases l2 with
    | nil => exact iff_of_false (by simp [charListLt]) (fun h => nomatch h)
    | cons b bs => exact iff_of_true (by simp [charListLt]) List.Lex.nil
  | cons a as ih =>
    intro l2
    cases l2 with
    | nil => exact iff_of_false (by simp [charListLt]) (fun h => nomatch h)
    | cons b bs =>
      simp only [charListLt]
      by_cases hab : a < b
      · simp only [if_pos hab]
        exact iff_of_true (by simp) (List.Lex.rel hab)
      · simp only [if_neg hab]
        by_cases hba : b < a
        · simp only [if_pos hba]
          refine iff_of_false (by simp) ?_
          intro h
          cases h with
          | cons h3 => exact lt_irrefl _ hba
          | rel h1 => exact hab h1
        · simp only [if_neg hba]
          have heq : a = b := le_antisymm (le_of_not_lt hba) (le_of_not_lt hab)
          subst heq
          constructor
          · intro h
            exact List.Lex.cons ((ih bs).mp h)
          · intro h
            cases h with
            | cons h3 => exact (ih bs).mpr h3
            | rel h1 => exact absurd h1 hab

theorem pyStrLt_iff (s t : String) : pyStrLt s t = true ↔ s < t := by
  rw [String.lt_iff_toList_lt]
  exact charListLt_iff s.toList t.toList

theorem tsMergeLine_min (sa : Option String) (l : RawLine α) :
    tsMergeLine sa l =
      match lineTs? l with
      | none => sa
      | some s => some (sa.elim s (fun cur => min s cur)) := by
  unfold tsMergeLine
  cases lineTs? l with
  | none => rfl
  | some s =>
    cases sa with
    | none => rfl
    | some cur =>
      simp only [Option.elim]
      by_cases h : pyStrLt s cur = true
      · have hlt := (pyStrLt_iff s cur).mp h
        simp [h, min_eq_left (le_of_lt hlt)]
      · have hge : cur ≤ s := le_of_not_lt (fun hl => h ((pyStrLt_iff s cur).mpr hl))
        simp [h, min_eq_right hge]

theorem tsFold_min (lines : List (RawLine α)) :
    ∀ sa : Option String,
      ((lines.foldl tsMergeLine sa = none → sa = none ∧ lines.filterMap lineTs? = []) ∧
       (∀ m, lines.foldl tsMergeLine sa = some m →
         (sa = some m ∨ m ∈ lines.filterMap lineTs?) ∧
         (∀ s ∈ lines.filterMap lineTs?, m ≤ s) ∧
         (∀ a, sa = some a → m ≤ a))) := by
  induction lines with
  | nil =>
    intro sa
    constructor
    · intro h; exact ⟨h, rfl⟩
    · intro m hm
      simp only [List.foldl_nil] at hm
      refine ⟨Or.inl hm, by simp, fun a ha => ?_⟩
      have h2 := hm.symm.trans ha
      injection h2 with h3
      exact le_of_eq h3
  | cons l rest ih =>
    intro sa
    rw [List.foldl_cons]
    cases hts : lineTs? l with
    | none =>
      have hmerge : tsMergeLine sa l = sa := by rw [tsMergeLine_min, hts]
      rw [hmerge]
      constructor
      · intro h
        obtain ⟨h1, h2⟩ := (ih sa).1 h
        exact ⟨h1, by simp [List.filterMap_cons, hts, h2]⟩
      · intro m hm
        obtain ⟨h1, h2, h3⟩ := (ih sa).2 m hm
        refine ⟨?_, ?_, h3⟩
        · rcases h1 with h1 | h1
          · exact Or.inl h1
          · exact Or.inr (by simp [List.filterMap_cons, hts, h1])
        · intro s hs
          simp only [List.filterMap_cons, hts] at hs
          exact h2 s hs
    | some s0 =>
      have hmerge : tsMergeLine sa l = some (sa.elim s0 (fun cur => min s0 cur)) := by
        rw [tsMergeLine_min, hts]
      rw [hmerge]
      constructor
      · intro h
        obtain ⟨h1, _⟩ := (ih _).1 h
        exact absurd h1 (by simp)
      · intro m hm
        obtain ⟨h1, h2, h3⟩ := (ih _).2 m hm
        have hv : m ≤ sa.elim s0 (fun cur => min s0 cur) := h3 _ rfl
        cases sa with
        | none =>
          simp only [Option.elim] at hv h1
          refine ⟨?_, ?_, ?_⟩
          · rcases h1 with h1 | h1
            · exact Or.inr (by
                simp only [List.filterMap_cons, hts, List.mem_cons]
                left
                injection h1 with hh
                exact hh.symm)
            · exact Or.inr (by simp [List.filterMap_cons, hts, h1])
          · intro s hs
            simp only [List.filterMap_cons, hts, List.mem_cons] at hs
            rcases hs with rfl | hs
            · exact hv
            · exact h2 s hs
          · intro a ha; cases ha
        | some cur =>
          simp only [Option.elim] at hv h1
          have hms : m ≤ s0 := le_trans hv (min_le_left _ _)
          have hmc : m ≤ cur := le_trans hv (min_le_right _ _)
          refine ⟨?_, ?_, ?_⟩
          · rcases h1 with h1 | h1
            · injection h1 with hh
              rcases min_choice s0 cur with hc | hc
              · rw [hc] at hh
                exact Or.inr (by simp [List.filterMap_cons, hts, hh.symm])
              · rw [hc] at hh
                exact Or.inl (by rw [hh])
            · exact Or.inr (by simp [List.filterMap_cons, hts, h1])
          · intro s hs
            simp only [List.filterMap_cons, hts, List.mem_cons] at hs
            rcases hs with rfl | hs
            · exact hms
            · exact h2 s hs
          · intro a ha
            injection ha with ha2
            rw [← ha2]
            exact hmc
theorem psssMsg_benign (st : SessState α) (msg : List (String × Json α))
    (hb : msgBenign msg = true) :
    ∃ st2, psssMsg st msg = some st2 ∧
      st2.started_at = st.started_at ∧
      st2.message_count = st.message_count + (if msgIsAssistant msg then 1 else 0) := by
  unfold msgBenign at hb
  unfold psssMsg
  cases hr : jlookup msg "role" with
  | none => exact ⟨st, rfl, rfl, by simp [msgIsAssistant, hr]⟩
  | some rv =>
    rw [hr] at hb
    cases rv with
    | str r =>
      by_cases hre : r = "assistant"
      · subst hre
        simp only [eq_self_iff_true, if_true] at hb ⊢
        cases hus : jlookup msg "usage" with
        | none =>
          exact ⟨_, rfl, rfl, by simp [msgIsAssistant, hr]⟩
        | some u =>
          rw [hus] at hb
          by_cases hut : u.truthy = true
          · simp only [hut, eq_self_iff_true, if_true] at hb ⊢
            unfold usageBenign at hb
            simp only [Bool.and_eq_true] at hb
            obtain ⟨⟨hp, hmod⟩, hu⟩ := hb
            obtain ⟨provider, hp⟩ := Option.isSome_iff_exists.mp hp
            obtain ⟨model, hmod⟩ := Option.isSome_iff_exists.mp hmod
            cases u with
            | obj uo =>
              simp only [Bool.and_eq_true] at hu
              obtain ⟨⟨⟨hi, ho⟩, hcr⟩, hcw⟩ := hu
              obtain ⟨i, hi⟩ := Option.isSome_iff_exists.mp hi
              obtain ⟨o, ho⟩ := Option.isSome_iff_exists.mp ho
              obtain ⟨cr, hcr⟩ := Option.isSome_iff_exists.mp hcr
              obtain ⟨cw, hcw⟩ := Option.isSome_iff_exists.mp hcw
              simp only [hp, hmod, hi, ho, hcr, hcw]
              exact ⟨_, rfl, rfl, by simp [msgIsAssistant, hr]⟩
            | null => exact absurd hu (by simp)
            | bool b => exact absurd hu (by simp)
            | num q => exact absurd hu (by simp)
            | str s => exact absurd hu (by simp)
          · simp only [Bool.not_eq_true] at hut
            simp only [hut, Bool.false_eq_true, if_false]
            exact ⟨_, rfl, rfl, by simp [msgIsAssistant, hr]⟩
      · simp only [if_neg hre]
        exact ⟨st, rfl, rfl, by simp [msgIsAssistant, hr, hre]⟩
    | null => exact ⟨st, rfl, rfl, by simp [msgIsAssistant, hr]⟩
    | bool b => exact ⟨st, rfl, rfl, by simp [msgIsAssistant, hr]⟩
    | num q => exact ⟨st, rfl, rfl, by simp [msgIsAssistant, hr]⟩
    | obj kvs2 => exact ⟨st, rfl, rfl, by simp [msgIsAssistant, hr]⟩

theorem psssLine_benign (l : RawLine α) (hl : lineBenign l = true) (st : SessState α) :
    ∃ st2, psssLine st l = some st2 ∧
      st2.started_at = tsMergeLine st.started_at l ∧
      st2.message_count = st.message_count + (if isAssistantLine l then 1 else 0) := by
  cases l with
  | blank =>
    exact ⟨st, rfl, by simp [tsMergeLine, lineTs?], by simp [isAssistantLine]⟩
  | malformed =>
    exact ⟨st, rfl, by simp [tsMergeLine, lineTs?], by simp [isAssistantLine]⟩
  | json j =>
    cases j with
    | null => exact absurd hl (by simp [lineBenign])
    | bool b => exact absurd hl (by simp [lineBenign])
    | num q => exact absurd hl (by simp [lineBenign])
    | str s => exact absurd hl (by simp [lineBenign])
    | obj kvs =>
      unfold lineBenign at hl
      simp only [Bool.and_eq_true] at hl
      obtain ⟨hts, hmsg⟩ := hl
      cases hts2 : jlookup kvs "timestamp" with
      | some tv =>
        cases tv with
        | str s =>
          refine
            (fun (st1 : SessState α) (hst1 : st1 = { st with started_at :=
                (match st.started_at with
                 | none => if s = "" then none else some s
                 | some cur =>
                   if !(s = "") && pyStrLt s cur then some s else some cur) }) => ?_)
            ({ st with started_at :=
                (match st.started_at with
                 | none => if s = "" then none else some s
                 | some cur =>
                   if !(s = "") && pyStrLt s cur then some s else some cur) }) rfl
          have hsa : st1.started_at =
              tsMergeLine st.started_at (RawLine.json (.obj kvs)) := by
            rw [hst1]
            simp only [tsMergeLine, lineTs?, hts2]
            by_cases hse : s = ""
            · cases hcur : st.started_at with
              | none => simp [hse]
              | some cur => simp [hse]
            · cases hcur : st.started_at with
              | none => simp [hse]
              | some cur => simp [hse]
          have hmcount : st1.message_count = st.message_count := by rw [hst1]
          cases htt : jlookup kvs "type" with
          | none =>
            refine ⟨st1, ?_, hsa, ?_⟩
            · rw [hst1]; simp only [psssLine, hts2, htt]
            · simp [hmcount, isAssistantLine, htt]
          | some tv2 =>
            cases tv2 with
            | str t =>
              by_cases hteq : t = "message"
              · subst hteq
                cases hm : jlookup kvs "message" with
                | none =>
                  refine ⟨st1, ?_, hsa, ?_⟩
                  · rw [hst1]; simp only [psssLine, hts2, htt, hm]; simp
                  · simp [hmcount, isAssistantLine, htt, hm]
                | some mv =>
                  rw [hm] at hmsg
                  cases mv with
                  | obj msg =>
                    obtain ⟨st2, hps, hsa2, hmc⟩ := psssMsg_benign st1 msg hmsg
                    refine ⟨st2, ?_, ?_, ?_⟩
                    · rw [hst1] at hps
                      simp only [psssLine, hts2, htt, hm]
                      simpa using hps
                    · rw [hsa2]; exact hsa
                    · rw [hmc, hmcount]
                      have hiso : isAssistantLine (RawLine.json (Json.obj kvs)) =
                          msgIsAssistant msg := by
                        simp [isAssistantLine, htt, hm, msgIsAssistant]
                      rw [hiso]
                  | null => exact absurd hmsg (by simp)
                  | bool b => exact absurd hmsg (by simp)
                  | num q => exact absurd hmsg (by simp)
                  | str s2 => exact absurd hmsg (by simp)
              · refine ⟨st1, ?_, hsa, ?_⟩
                · rw [hst1]; simp only [psssLine, hts2, htt]; rw [if_neg hteq]
                · simp [hmcount, isAssistantLine, htt, hteq]
            | null =>
              refine ⟨st1, ?_, hsa, ?_⟩
              · rw [hst1]; simp only [psssLine, hts2, htt]
              · simp [hmcount, isAssistantLine, htt]
            | bool b =>
              refine ⟨st1, ?_, hsa, ?_⟩
              · rw [hst1]; simp only [psssLine, hts2, htt]
              · simp [hmcount, isAssistantLine, htt]
            | num q =>
              refine ⟨st1, ?_, hsa, ?_⟩
              · rw [hst1]; simp only [psssLine, hts2, htt]
              · simp [hmcount, isAssistantLine, htt]
            | obj kvs2 =>
              refine ⟨st1, ?_, hsa, ?_⟩
              · rw [hst1]; simp only [psssLine, hts2, htt]
              · simp [hmcount, isAssistantLine, htt]
        | null => exact absurd hts (by simp [hts2])
        | bool b => exact absurd hts (by simp [hts2])
        | num q => exact absurd hts (by simp [hts2])
        | obj kvs2 => exact absurd hts (by simp [hts2])
      | none =>
        have hsa : st.started_at = tsMergeLine st.started_at (RawLine.json (.obj kvs)) := by
          simp [tsMergeLine, lineTs?, hts2]
        cases htt : jlookup kvs "type" with
        | none =>
          refine ⟨st, ?_, hsa, by simp [isAssistantLine, htt]⟩
          simp only [psssLine, hts2, htt]
        | some tv2 =>
          cases tv2 with
          | str t =>
            by_cases hteq : t = "message"
            · subst hteq
              cases hm : jlookup kvs "message" with
              | none =>
                refine ⟨st, ?_, hsa, by simp [isAssistantLine, htt, hm]⟩
                simp only [psssLine, hts2, htt, hm]
                simp
              | some mv =>
                rw [hm] at hmsg
                cases mv with
                | obj msg =>
                  obtain ⟨st2, hps, hsa2, hmc⟩ := psssMsg_benign st msg hmsg
                  refine ⟨st2, ?_, ?_, ?_⟩
                  · simp only [psssLine, hts2, htt, hm]
                    simpa using hps
                  · rw [hsa2]; exact hsa
                  · rw [hmc]
                    have hiso : isAssistantLine (RawLine.json (Json.obj kvs)) =
                        msgIsAssistant msg := by
                      simp [isAssistantLine, htt, hm, msgIsAssistant]
                    rw [hiso]
                | null => exact absurd hmsg (by simp)
                | bool b => exact absurd hmsg (by simp)
                | num q => exact absurd hmsg (by simp)
                | str s2 => exact absurd hmsg (by simp)
            · refine ⟨st, ?_, hsa, by simp [isAssistantLine, htt, hteq]⟩
              simp only [psssLine, hts2, htt]
              rw [if_neg hteq]
          | null =>
            refine ⟨st, ?_, hsa, by simp [isAssistantLine, htt]⟩
            simp only [psssLine, hts2, htt]
          | bool b =>
            refine ⟨st, ?_, hsa, by simp [isAssistantLine, htt]⟩
            simp only [psssLine, hts2, htt]
          | num q =>
            refine ⟨st, ?_, hsa, by simp [isAssistantLine, htt]⟩
            simp only [psssLine, hts2, htt]
          | obj kvs2 =>
            refine ⟨st, ?_, hsa, by simp [isAssistantLine, htt]⟩
            simp only [psssLine, hts2, htt]

theorem psssGo_spec : ∀ (lines : List (RawLine α)) (st : SessState α),
    lines.all lineBenign = true →
    (psssGo st lines).started_at = lines.foldl tsMergeLine st.started_at ∧
    (psssGo st lines).message_count = st.message_count + lines.countP isAssistantLine := by
  intro lines
  induction lines with
  | nil => intro st h; exact ⟨rfl, by simp [psssGo]⟩
  | cons l rest ih =>
    intro st h
    simp only [List.all_cons, Bool.and_eq_true] at h
    obtain ⟨hl, hrest⟩ := h
    obtain ⟨st2, heq, hsa, hmc⟩ := psssLine_benign l hl st
    have hgo : psssGo st (l :: rest) = psssGo st2 rest := by
      simp only [psssGo, heq]
    rw [hgo, List.foldl_cons, List.countP_cons]
    obtain ⟨ih1, ih2⟩ := ih st2 hrest
    constructor
    · rw [ih1, hsa]
    · rw [ih2, hmc]
      by_cases hia : isAssistantLine l = true
      · simp [hia]; omega
      · simp [hia]

/-- Claim C8: for a session file whose lines decode to well-shaped objects
(`lineBenign`), the live session reader's snapshot has `started_at` equal to
the minimum timestamp seen across **all** decoded lines of the file — not
only usage-bearing or assistant lines — and `message_count` equal to the
number of assistant-role message lines, whether or not each carried usage. -/
theorem c8_session_snapshot (lines : List (RawLine α))
    (hb : lines.all lineBenign = true) :
    ((parse_single_session lines).started_at = none →
        lines.filterMap lineTs? = []) ∧
    (∀ m, (parse_single_session lines).started_at = some m →
        (m ∈ lines.filterMap lineTs? ∧ ∀ s ∈ lines.filterMap lineTs?, m ≤ s)) ∧
    (parse_single_session lines).message_count = lines.countP isAssistantLine := by
  obtain ⟨h1, h2⟩ := psssGo_spec lines ⟨none, 0, []⟩ hb
  refine ⟨?_, ?_, ?_⟩
  · intro hnone
    have hfold : lines.foldl tsMergeLine none = none := by
      rw [← h1]; exact hnone
    exact ((tsFold_min lines none).1 hfold).2
  · intro m hm
    have hfold : lines.foldl tsMergeLine none = some m := by
      rw [← h1]; exact hm
    obtain ⟨hin, hbnd, _⟩ := (tsFold_min lines none).2 m hfold
    rcases hin with hin | hin
    · exact absurd hin (by simp)
    · exact ⟨hin, hbnd⟩
  · simpa using h2

theorem c8_witness :
    ("2026-02-18T10:00:00Z" ∈ [earlyLine, claudeLine].filterMap lineTs? ∧
      ∀ s ∈ [earlyLine, claudeLine].filterMap lineTs?,
        "2026-02-18T10:00:00Z" ≤ s) ∧
    (parse_single_session [earlyLine, claudeLine]).message_count
      = [earlyLine, claudeLine].countP isAssistantLine := by
  have h := c8_session_snapshot [earlyLine, claudeLine] (by decide)
  exact ⟨h.2.1 "2026-02-18T10:00:00Z" (by decide), h.2.2⟩

lemma anthropicBuild_err (r : SessionRec α) :
    anthropicBuild r = .error (.typeError "hour") := rfl

lemma googleBuild_err (r : SessionRec α) :
    googleBuild r = .error (.typeError "hour") := rfl

lemma moonshotBuild_err (r : SessionRec α) :
    moonshotBuild r = .error (.keyError "total_tokens") := rfl

lemma mapM_cons_err {β : Type} (f : SessionRec α → Except PyErr β) (e : PyErr)
    (r : SessionRec α) (rest : List (SessionRec α)) (hf : f r = .error e) :
    (r :: rest).mapM f = .error e := by
  rw [List.mapM_cons, hf]
  rfl

lemma moonshotFetch_err (env : Env) (pdh : String → Option (String × ℕ))
    (now : String × ℕ) (files : List (List (RawLine α))) (sd ed : Option String)
    (hc : envTruthy env "MOONSHOT_API_KEY" = true)
    (hne : parse_sessions pdh now files ["kimi-", "moonshot-"] sd ed ≠ []) :
    moonshotFetch env pdh now files sd ed = .error (.keyError "total_tokens") := by
  rw [moonshotFetch, hc]
  cases hp : parse_sessions pdh now files ["kimi-", "moonshot-"] sd ed with
  | nil => exact absurd hp hne
  | cons r rest => simpa using mapM_cons_err _ _ r rest (moonshotBuild_err r)

lemma anthropicFetch_err (env : Env) (pdh : String → Option (String × ℕ))
    (now : String × ℕ) (files : List (List (RawLine α))) (sd ed : Option String)
    (hc : envTruthy env "ANTHROPIC_API_KEY" = true)
    (hne : parse_sessions pdh now files ["claude-"] sd ed ≠ []) :
    anthropicFetch env pdh now files sd ed = .error (.typeError "hour") := by
  rw [anthropicFetch, hc]
  cases hp : parse_sessions pdh now files ["claude-"] sd ed with
  | nil => exact absurd hp hne
  | cons r rest => simpa using mapM_cons_err _ _ r rest (anthropicBuild_err r)

lemma googleFetch_err (env : Env) (pdh : String → Option (String × ℕ))
    (now : String × ℕ) (files : List (List (RawLine α))) (sd ed : Option String)
    (hc : envTruthy env "GEMINI_API_KEY" = true)
    (hne : parse_sessions pdh now files ["gemini-"] sd ed ≠ []) :
    googleFetch env pdh now files sd ed = .error (.typeError "hour") := by
  rw [googleFetch, hc]
  cases hp : parse_sessions pdh now files ["gemini-"] sd ed with
  | nil => exact absurd hp hne
  | cons r rest => simpa using mapM_cons_err _ _ r rest (googleBuild_err r)

lemma fetch_ok_nil (env : Env) (pdh : String → Option (String × ℕ))
    (now : String × ℕ) (files : List (List (RawLine α))) (sd ed : Option String) :
    ∀ p ∈ allProviders env pdh now files sd ed,
      ∀ recs, p.fetch = .ok recs → recs = [] := by
  intro p hp recs hr
  simp only [allProviders, List.mem_cons, List.not_mem_nil, or_false] at hp
  rcases hp with h | h | h <;> subst h <;> simp only at hr
  · rw [anthropicFetch] at hr
    cases hc : envTruthy env "ANTHROPIC_API_KEY" with
    | false => rw [hc] at hr; simp at hr; exact hr
    | true =>
      rw [hc] at hr
      simp only [Bool.not_true, Bool.false_eq_true, if_false] at hr
      cases hp2 : parse_sessions pdh now files ["claude-"] sd ed with
      | nil => rw [hp2] at hr; exact (Except.ok.inj hr).symm
      | cons r rest =>
        rw [hp2, mapM_cons_err _ _ r rest (anthropicBuild_err r)] at hr
        exact Except.noConfusion hr
  · rw [googleFetch] at hr
    cases hc : envTruthy env "GEMINI_API_KEY" with
    | false => rw [hc] at hr; simp at hr; exact hr
    | true =>
      rw [hc] at hr
      simp only [Bool.not_true, Bool.false_eq_true, if_false] at hr
      cases hp2 : parse_sessions pdh now files ["gemini-"] sd ed with
      | nil => rw [hp2] at hr; exact (Except.ok.inj hr).symm
      | cons r rest =>
        rw [hp2, mapM_cons_err _ _ r rest (googleBuild_err r)] at hr
        exact Except.noConfusion hr
  · rw [moonshotFetch] at hr
    cases hc : envTruthy env "MOONSHOT_API_KEY" with
    | false => rw [hc] at hr; simp at hr; exact hr
    | true =>
      rw [hc] at hr
      simp only [Bool.not_true, Bool.false_eq_true, if_false] at hr
      cases hp2 : parse_sessions pdh now files ["kimi-", "moonshot-"] sd ed with
      | nil => rw [hp2] at hr; exact (Except.ok.inj hr).symm
      | cons r rest =>
        rw [hp2, mapM_cons_err _ _ r rest (moonshotBuild_err r)] at hr
        exact Except.noConfusion hr

lemma sync_usage_unchanged (ps : List (ProviderM α))
    (hok : ∀ p ∈ ps, ∀ recs, p.fetch = .ok recs → recs = [])
    (name syncedAt : String) (st : Store α) :
    ((sync_provider ps name syncedAt st).1).usage = st.usage := by
  rw [sync_provider]
  cases hf : ps.find? (fun p => p.name == name) with
  | none => rfl
  | some p =>
    have hmem : p ∈ ps := List.mem_of_find?_eq_some hf
    cases hc : p.configured with
    | false => simp [hc]
    | true =>
      simp only [hc, Bool.not_true, Bool.false_eq_true, if_false]
      cases hfe : p.fetch with
      | error e => rfl
      | ok recs =>
        have : recs = [] := hok p hmem recs hfe
        subst this
        simp only [persistRecords, List.foldlM_nil]
        rfl

lemma sync_error_case (ps : List (ProviderM α)) (name syncedAt : String)
    (st : Store α) (p : ProviderM α) (e : PyErr)
    (hf : ps.find? (fun q => q.name == name) = some p)
    (hc : p.configured = true) (hfe : p.fetch = .error e) :
    sync_provider ps name syncedAt st =
      ({ st with syncLog := st.syncLog ++
           [⟨name, "error", pyStrTake (pyStr e) 500, syncedAt⟩] },
       .statusMsg "error" (p.displayName ++ ": fetch failed — " ++ pyStr e)) := by
  rw [sync_provider, hf]
  simp only [hc, Bool.not_true, Bool.false_eq_true, if_false, hfe]

lemma sync_ok_zero (ps : List (ProviderM α))
    (hok : ∀ p ∈ ps, ∀ recs, p.fetch = .ok recs → recs = [])
    (name syncedAt : String) (st : Store α) (n : ℕ)
    (h : (sync_provider ps name syncedAt st).2 = .okRes n) : n = 0 := by
  rw [sync_provider] at h
  cases hf : ps.find? (fun p => p.name == name) with
  | none => rw [hf] at h; exact SyncRes.noConfusion h
  | some p =>
    rw [hf] at h
    have hmem : p ∈ ps := List.mem_of_find?_eq_some hf
    cases hc : p.configured with
    | false => simp only [hc] at h; exact SyncRes.noConfusion h
    | true =>
      simp only [hc, Bool.not_true, Bool.false_eq_true, if_false] at h
      cases hfe : p.fetch with
      | error e => rw [hfe] at h; exact SyncRes.noConfusion h
      | ok recs =>
        have : recs = [] := hok p hmem recs hfe
        subst this
        rw [hfe] at h
        simp only [persistRecords, List.foldlM_nil] at h
        exact (SyncRes.okRes.inj h).symm



/-- Claim C1: whenever a configured provider's parse yields at least one
aggregated record, its `fetch_usage` raises — `KeyError("total_tokens")` for
Moonshot, `TypeError` on the undeclared `hour` keyword for Anthropic and
Google — so `sync_provider` over the real registry never changes stored usage
data, an `ok` outcome is only possible with zero records, and a configured
provider whose fetch raises gets exactly one truncated `error` log row and an
`error` status dict. -/
theorem c1_configured_fetch_raises (env : Env) (pdh : String → Option (String × ℕ))
    (now : String × ℕ) (files : List (List (RawLine α))) (sd ed : Option String) :
    (envTruthy env "MOONSHOT_API_KEY" = true →
      parse_sessions pdh now files ["kimi-", "moonshot-"] sd ed ≠ [] →
      moonshotFetch env pdh now files sd ed = .error (.keyError "total_tokens")) ∧
    (envTruthy env "ANTHROPIC_API_KEY" = true →
      parse_sessions pdh now files ["claude-"] sd ed ≠ [] →
      anthropicFetch env pdh now files sd ed = .error (.typeError "hour")) ∧
    (envTruthy env "GEMINI_API_KEY" = true →
      parse_sessions pdh now files ["gemini-"] sd ed ≠ [] →
      googleFetch env pdh now files sd ed = .error (.typeError "hour")) ∧
    (∀ name syncedAt st,
      ((sync_provider (allProviders env pdh now files sd ed) name syncedAt st).1).usage
        = st.usage) ∧
    (∀ name syncedAt st n,
      (sync_provider (allProviders env pdh now files sd ed) name syncedAt st).2
          = .okRes n → n = 0) ∧
    (∀ name syncedAt st p e,
      (allProviders env pdh now files sd ed).find? (fun q => q.name == name) = some p →
      p.configured = true → p.fetch = .error e →
      sync_provider (allProviders env pdh now files sd ed) name syncedAt st =
        ({ st with syncLog := st.syncLog ++
             [⟨name, "error", pyStrTake (pyStr e) 500, syncedAt⟩] },
         .statusMsg "error" (p.displayName ++ ": fetch failed — " ++ pyStr e))) := by
  refine ⟨moonshotFetch_err env pdh now files sd ed,
          anthropicFetch_err env pdh now files sd ed,
          googleFetch_err env pdh now files sd ed,
          fun name syncedAt st =>
            sync_usage_unchanged _ (fetch_ok_nil env pdh now files sd ed) name syncedAt st,
          fun name syncedAt st n h =>
            sync_ok_zero _ (fetch_ok_nil env pdh now files sd ed) name syncedAt st n h,
          fun name syncedAt st p e hf hc hfe =>
            sync_error_case _ name syncedAt st p e hf hc hfe⟩

/-- Concrete instance of C1: with every credential set and one matching usage
line per provider, all three fetches raise, the moonshot sync records the
truncated `KeyError` message, and stored usage stays empty. -/
theorem c1_witness :
    moonshotFetch envAll isoUtcParse nowFeb18 triFiles none none
        = .error (.keyError "total_tokens") ∧
    anthropicFetch envAll isoUtcParse nowFeb18 triFiles none none
        = .error (.typeError "hour") ∧
    googleFetch envAll isoUtcParse nowFeb18 triFiles none none
        = .error (.typeError "hour") ∧
    ((sync_provider (allProviders envAll isoUtcParse nowFeb18 triFiles none none)
        "moonshot" "T" emptyStore).1).usage = emptyStore.usage ∧
    sync_provider (allProviders envAll isoUtcParse nowFeb18 triFiles none none)
        "moonshot" "T" emptyStore =
      (⟨[], [⟨"moonshot", "error", "'total_tokens'", "T"⟩]⟩,
       .statusMsg "error" "Moonshot / Kimi: fetch failed — 'total_tokens'") := by
  have h := c1_configured_fetch_raises envAll isoUtcParse nowFeb18 triFiles none none
  refine ⟨h.1 (by decide) (by decide), h.2.1 (by decide) (by decide),
          h.2.2.1 (by decide) (by decide), h.2.2.2.1 "moonshot" "T" emptyStore, ?_⟩
  have h6 := h.2.2.2.2.2 "moonshot" "T" emptyStore
    ⟨"moonshot", "Moonshot / Kimi", envTruthy envAll "MOONSHOT_API_KEY",
      moonshotFetch envAll isoUtcParse nowFeb18 triFiles none none⟩
    (.keyError "total_tokens") (by decide) (by decide) (by decide)
  rw [h6]
  decide

lemma upsert_ok (p : List (String × Json α)) (t : UsageTable α)
    (hc : paramsComplete p = true) :
    upsert_usage_record p t = .ok (tableUpsert (paramKey p) (paramRow p) t) := by
  have hnone : sqlParamNames.find? (fun k => (jlookup p k).isNone) = none := by
    rw [List.find?_eq_none]
    intro k hk
    have h1 := (List.all_eq_true.mp hc) k hk
    cases hj : jlookup p k with
    | none => rw [hj] at h1; exact absurd h1 (by simp)
    | some v => simp [hj]
  rw [upsert_usage_record, hnone]
  rfl

lemma upsert_err (p : List (String × Json α)) (t : UsageTable α)
    (hc : paramsComplete p = false) :
    ∃ k, upsert_usage_record p t = .error (.programmingError k) := by
  have : ∃ k, sqlParamNames.find? (fun k => (jlookup p k).isNone) = some k := by
    rw [← Option.isSome_iff_exists, List.find?_isSome]
    rw [paramsComplete] at hc
    simp only [List.all_eq_false] at hc
    obtain ⟨k, hk, hks⟩ := hc
    refine ⟨k, hk, ?_⟩
    cases hj : jlookup p k with
    | none => simp
    | some v => rw [hj] at hks; simp at hks
  obtain ⟨k, hk⟩ := this
  exact ⟨k, by rw [upsert_usage_record, hk]⟩

lemma upsertAll_ok_elim (ps : List (List (String × Json α))) :
    ∀ t t', upsertAll ps t = .ok t' →
      (∀ p ∈ ps, paramsComplete p = true) ∧ t' = upsertAllP ps t := by
  induction ps with
  | nil =>
    intro t t' h
    rw [upsertAll, List.foldlM_nil] at h
    exact ⟨by simp, (Except.ok.inj h).symm⟩
  | cons p ps ih =>
    intro t t' h
    rw [upsertAll, List.foldlM_cons] at h
    cases hc : paramsComplete p with
    | false =>
      obtain ⟨k, hk⟩ := upsert_err p t hc
      rw [hk] at h
      exact Except.noConfusion h
    | true =>
      rw [upsert_ok p t hc] at h
      have h2 : upsertAll ps (tableUpsert (paramKey p) (paramRow p) t) = .ok t' := h
      obtain ⟨hall, ht'⟩ := ih _ _ h2
      refine ⟨?_, ht'⟩
      intro q hq
      rcases List.mem_cons.mp hq with h | h
      · exact h ▸ hc
      · exact hall q h

lemma upsertAll_complete_ok (ps : List (List (String × Json α))) :
    ∀ t, (∀ p ∈ ps, paramsComplete p = true) →
      upsertAll ps t = .ok (upsertAllP ps t) := by
  induction ps with
  | nil => intro t _; rfl
  | cons p ps ih =>
    intro t hall
    rw [upsertAll, List.foldlM_cons, upsert_ok p t (hall p (List.mem_cons_self p ps))]
    have : upsertAll ps (tableUpsert (paramKey p) (paramRow p) t)
        = .ok (upsertAllP ps (tableUpsert (paramKey p) (paramRow p) t)) :=
      ih _ (fun q hq => hall q (List.mem_cons_of_mem p hq))
    exact this

lemma tableUpsert_keys (k : UKey α) (v : UsageRow α) :
    ∀ t : UsageTable α, (tableUpsert k v t).map Prod.fst =
      if k ∈ t.map Prod.fst then t.map Prod.fst else t.map Prod.fst ++ [k]
  | [] => by simp [tableUpsert]
  | (k2, r) :: rest => by
    rw [tableUpsert]
    by_cases h : k2 = k
    · subst h
      simp
    · have hne : k ≠ k2 := fun he => h he.symm
      simp only [if_neg h, List.map_cons, List.mem_cons, hne, false_or]
      rw [tableUpsert_keys k v rest]
      by_cases hm : k ∈ rest.map Prod.fst
      · simp [hm]
      · simp [hm]

lemma tableUpsert_key_mem (k : UKey α) (v : UsageRow α) (t : UsageTable α) :
    k ∈ (tableUpsert k v t).map Prod.fst := by
  rw [tableUpsert_keys]
  by_cases hm : k ∈ t.map Prod.fst
  · rw [if_pos hm]
    exact hm
  · simp [hm]

lemma tableUpsert_mem_mono (k k2 : UKey α) (v : UsageRow α) (t : UsageTable α)
    (h : k ∈ t.map Prod.fst) : k ∈ (tableUpsert k2 v t).map Prod.fst := by
  rw [tableUpsert_keys]
  by_cases hm : k2 ∈ t.map Prod.fst
  · simpa [hm] using h
  · simp only [if_neg hm]
    exact List.mem_append_left _ h

lemma tableUpsert_keys_of_mem (k : UKey α) (v : UsageRow α) (t : UsageTable α)
    (h : k ∈ t.map Prod.fst) :
    (tableUpsert k v t).map Prod.fst = t.map Prod.fst := by
  rw [tableUpsert_keys, if_pos h]

lemma tableUpsert_nodup (k : UKey α) (v : UsageRow α) (t : UsageTable α)
    (h : (t.map Prod.fst).Nodup) : ((tableUpsert k v t).map Prod.fst).Nodup := by
  rw [tableUpsert_keys]
  by_cases hm : k ∈ t.map Prod.fst
  · simpa [hm] using h
  · simp only [if_neg hm]
    simp [List.nodup_append, h, hm]

lemma lookupRow_tableUpsert (k k2 : UKey α) (v : UsageRow α) :
    ∀ t : UsageTable α, lookupRow k2 (tableUpsert k v t) =
      if k2 = k then some v else lookupRow k2 t
  | [] => by
    by_cases h : k2 = k
    · subst h
      simp [tableUpsert, lookupRow]
    · simp [tableUpsert, lookupRow, h, Ne.symm h]
  | (k3, r) :: rest => by
    by_cases h3 : k3 = k
    · subst h3
      by_cases h2 : k2 = k3
      · subst h2
        simp [tableUpsert, lookupRow]
      · simp [tableUpsert, lookupRow, h2, Ne.symm h2]
    · by_cases h2 : k2 = k3
      · subst h2
        simp [tableUpsert, lookupRow, h3, Ne.symm h3]
      · simp [tableUpsert, lookupRow, h3, h2, Ne.symm h2,
          lookupRow_tableUpsert k k2 v rest]

lemma lookupRow_eq_none (k : UKey α) :
    ∀ t : UsageTable α, k ∉ t.map Prod.fst → lookupRow k t = none
  | [] => fun _ => rfl
  | (k2, r) :: rest => by
    intro h
    simp only [List.map_cons, List.mem_cons] at h
    push_neg at h
    rw [lookupRow, if_neg (fun he : k2 = k => h.1 he.symm)]
    exact lookupRow_eq_none k rest h.2

lemma writeOf_foldl (k : UKey α) :
    ∀ (ps : List (List (String × Json α))) (acc : Option (UsageRow α)),
      ps.foldl (fun a p => if paramKey p = k then some (paramRow p) else a) acc =
        match writeOf ps k with
        | some v => some v
        | none => acc
  | [], acc => rfl
  | p :: ps, acc => by
    rw [List.foldl_cons]
    rw [writeOf_foldl k ps (if paramKey p = k then some (paramRow p) else acc)]
    have h2 : writeOf (p :: ps) k =
        match writeOf ps k with
        | some v => some v
        | none => if paramKey p = k then some (paramRow p) else none := by
      rw [writeOf, List.foldl_cons]
      rw [writeOf_foldl k ps (if paramKey p = k then some (paramRow p) else none)]
    rw [h2]
    cases writeOf ps k with
    | some v => rfl
    | none =>
      by_cases hp : paramKey p = k
      · simp [hp]
      · simp [hp]

lemma lookupRow_upsertAllP (k : UKey α) :
    ∀ (ps : List (List (String × Json α))) (t : UsageTable α),
      lookupRow k (upsertAllP ps t) =
        match writeOf ps k with
        | some v => some v
        | none => lookupRow k t
  | [], t => rfl
  | p :: ps, t => by
    rw [upsertAllP, List.foldl_cons]
    have h1 : ps.foldl (fun t q => tableUpsert (paramKey q) (paramRow q) t)
        (tableUpsert (paramKey p) (paramRow p) t) =
        upsertAllP ps (tableUpsert (paramKey p) (paramRow p) t) := rfl
    rw [h1, lookupRow_upsertAllP k ps (tableUpsert (paramKey p) (paramRow p) t)]
    have h2 : writeOf (p :: ps) k =
        match writeOf ps k with
        | some v => some v
        | none => if paramKey p = k then some (paramRow p) else none := by
      rw [writeOf, List.foldl_cons]
      rw [writeOf_foldl k ps (if paramKey p = k then some (paramRow p) else none)]
    rw [h2]
    cases writeOf ps k with
    | some v => rfl
    | none =>
      rw [lookupRow_tableUpsert]
      by_cases hp : paramKey p = k
      · simp [hp]
      · have hk : ¬ k = paramKey p := fun he => hp he.symm
        simp [hp, hk]

lemma upsertAllP_mem_mono (k : UKey α) :
    ∀ (ps : List (List (String × Json α))) (t : UsageTable α),
      k ∈ t.map Prod.fst → k ∈ (upsertAllP ps t).map Prod.fst
  | [], _t => fun h => h
  | p :: ps, t => fun h =>
    upsertAllP_mem_mono k ps (tableUpsert (paramKey p) (paramRow p) t)
      (tableUpsert_mem_mono k (paramKey p) (paramRow p) t h)

lemma upsertAllP_writes_mem :
    ∀ (ps : List (List (String × Json α))) (t : UsageTable α) (p : List (String × Json α)),
      p ∈ ps → paramKey p ∈ (upsertAllP ps t).map Prod.fst
  | [], _, _ => fun h => absurd h (List.not_mem_nil _)
  | q :: ps, t, p => fun h => by
    rcases List.mem_cons.mp h with h | h
    · subst h
      exact upsertAllP_mem_mono _ ps _ (tableUpsert_key_mem _ _ t)
    · exact upsertAllP_writes_mem ps _ p h

lemma upsertAllP_keys_of_mem :
    ∀ (ps : List (List (String × Json α))) (t : UsageTable α),
      (∀ p ∈ ps, paramKey p ∈ t.map Prod.fst) →
      (upsertAllP ps t).map Prod.fst = t.map Prod.fst
  | [], t => fun _ => rfl
  | p :: ps, t => fun h => by
    have hk := h p (List.mem_cons_self p ps)
    have hkeys := tableUpsert_keys_of_mem (paramKey p) (paramRow p) t hk
    have : (upsertAllP ps (tableUpsert (paramKey p) (paramRow p) t)).map Prod.fst
        = (tableUpsert (paramKey p) (paramRow p) t).map Prod.fst :=
      upsertAllP_keys_of_mem ps _ (fun q hq => by
        rw [hkeys]
        exact h q (List.mem_cons_of_mem p hq))
    calc (upsertAllP (p :: ps) t).map Prod.fst
        = (upsertAllP ps (tableUpsert (paramKey p) (paramRow p) t)).map Prod.fst := rfl
      _ = (tableUpsert (paramKey p) (paramRow p) t).map Prod.fst := this
      _ = t.map Prod.fst := hkeys

lemma upsertAllP_nodup :
    ∀ (ps : List (List (String × Json α))) (t : UsageTable α),
      (t.map Prod.fst).Nodup → ((upsertAllP ps t).map Prod.fst).Nodup
  | [], _t => fun h => h
  | p :: ps, t => fun h =>
    upsertAllP_nodup ps _ (tableUpsert_nodup (paramKey p) (paramRow p) t h)

lemma table_ext :
    ∀ (t1 t2 : UsageTable α), t1.map Prod.fst = t2.map Prod.fst →
      ((t1.map Prod.fst).Nodup) →
      (∀ k, lookupRow k t1 = lookupRow k t2) → t1 = t2
  | [], [] => fun _ _ _ => rfl
  | [], (k2, r2) :: t2 => fun hm _ _ => by simp at hm
  | (k1, r1) :: t1, [] => fun hm _ _ => by simp at hm
  | (k1, r1) :: t1, (k2, r2) :: t2 => fun hm hnd hl => by
    simp only [List.map_cons, List.cons.injEq] at hm
    obtain ⟨hk, htl⟩ := hm
    subst hk
    have hr : r1 = r2 := by
      have := hl k1
      rw [lookupRow, lookupRow, if_pos rfl, if_pos rfl] at this
      exact Option.some.inj this
    subst hr
    have hnd' : (t1.map Prod.fst).Nodup := (List.nodup_cons.mp hnd).2
    have hk1 : k1 ∉ t1.map Prod.fst := (List.nodup_cons.mp hnd).1
    have hk2 : k1 ∉ t2.map Prod.fst := htl ▸ hk1
    have htail : t1 = t2 := by
      refine table_ext t1 t2 htl hnd' (fun k => ?_)
      by_cases hkk : k = k1
      · subst hkk
        rw [lookupRow_eq_none k t1 hk1, lookupRow_eq_none k t2 hk2]
      · have := hl k
        rw [lookupRow, lookupRow, if_neg (fun he : k1 = k => hkk he.symm),
          if_neg (fun he : k1 = k => hkk he.symm)] at this
        exact this
    rw [htail]

lemma upsertAll_idem (ps : List (List (String × Json α))) (t t' : UsageTable α)
    (hnd : (t.map Prod.fst).Nodup) (h : upsertAll ps t = .ok t') :
    upsertAll ps t' = .ok t' := by
  obtain ⟨hall, ht'⟩ := upsertAll_ok_elim ps t t' h
  subst ht'
  rw [upsertAll_complete_ok ps _ hall]
  congr 1
  apply table_ext
  · exact upsertAllP_keys_of_mem ps _ (fun p hp => upsertAllP_writes_mem ps t p hp)
  · exact upsertAllP_nodup ps _ (upsertAllP_nodup ps t hnd)
  · intro k
    rw [lookupRow_upsertAllP, lookupRow_upsertAllP k ps t]
    cases hw : writeOf ps k with
    | some v => rfl
    | none => rfl



/-- Claim C4: syncing twice equals syncing once.  Replaying a successful
upsert batch onto the table it produced reproduces that table exactly
(persistence replaces by composite key, never accumulates), and at the sync
level a repeated `sync_provider` pass over the real registry leaves the
stored usage exactly as one pass does. -/
theorem c4_sync_idempotent :
    (∀ (ps : List (List (String × Json α))) (t t' : UsageTable α),
      (t.map Prod.fst).Nodup → upsertAll ps t = .ok t' → upsertAll ps t' = .ok t') ∧
    (∀ (env : Env) (pdh : String → Option (String × ℕ)) (now : String × ℕ)
       (files : List (List (RawLine α))) (sd ed : Option String)
       (name syncedAt : String) (st : Store α),
      ((sync_provider (allProviders env pdh now files sd ed) name syncedAt
          ((sync_provider (allProviders env pdh now files sd ed) name syncedAt
            st).1)).1).usage
        = ((sync_provider (allProviders env pdh now files sd ed) name syncedAt
            st).1).usage) := by
  refine ⟨upsertAll_idem, ?_⟩
  intro env pdh now files sd ed name syncedAt st
  exact sync_usage_unchanged _ (fetch_ok_nil env pdh now files sd ed) name syncedAt _

/-- Concrete instance of C4: upserting a fully-bound record into the empty
table and replaying the same upsert onto the result leaves the one-row table
unchanged, and a second moonshot sync pass leaves stored usage as the first
pass did. -/
theorem c4_witness :
    upsertAll [c4dict] ([] : UsageTable ℤ)
        = .ok [(paramKey c4dict, paramRow c4dict)] ∧
    upsertAll [c4dict] [(paramKey c4dict, paramRow c4dict)]
        = .ok [(paramKey c4dict, paramRow c4dict)] ∧
    ((sync_provider (allProviders envAll isoUtcParse nowFeb18 triFiles none none)
        "moonshot" "T"
        ((sync_provider (allProviders envAll isoUtcParse nowFeb18 triFiles none none)
          "moonshot" "T" emptyStore).1)).1).usage
      = ((sync_provider (allProviders envAll isoUtcParse nowFeb18 triFiles none none)
          "moonshot" "T" emptyStore).1).usage :=
  ⟨by decide,
   c4_sync_idempotent.1 [c4dict] [] [(paramKey c4dict, paramRow c4dict)]
     (by decide) (by decide),
   c4_sync_idempotent.2 envAll isoUtcParse nowFeb18 triFiles none none "moonshot" "T"
     emptyStore⟩



lemma upsert_err_indep (p : List (String × Json α)) (t t2 : UsageTable α)
    (e : PyErr) (h : upsert_usage_record p t = .error e) :
    upsert_usage_record p t2 = .error e := by
  rw [upsert_usage_record] at h ⊢
  cases hf : sqlParamNames.find? (fun k => (jlookup p k).isNone) with
  | none =>
    rw [hf] at h
    exact Except.noConfusion h
  | some k =>
    rw [hf] at h
    exact h

lemma upsertAll_err_indep :
    ∀ (ps : List (List (String × Json α))) (t t2 : UsageTable α) (e : PyErr),
      upsertAll ps t = .error e → upsertAll ps t2 = .error e
  | [], t, t2, e => fun h => by
    rw [upsertAll, List.foldlM_nil] at h
    exact Except.noConfusion h
  | p :: ps, t, t2, e => fun h => by
    rw [upsertAll, List.foldlM_cons] at h ⊢
    cases hc : paramsComplete p with
    | true =>
      rw [upsert_ok p t hc] at h
      rw [upsert_ok p t2 hc]
      exact upsertAll_err_indep ps _ _ e h
    | false =>
      obtain ⟨k, hk⟩ := upsert_err p t hc
      rw [hk] at h
      rw [upsert_err_indep p t t2 _ hk]
      exact h

lemma foldlM_as_upsertAll (recs : List (UsageRecordPy α)) (syncedAt : String)
    (t0 : UsageTable α) :
    recs.foldlM (fun t r => upsert_usage_record (schedUpsertDict r syncedAt) t) t0
      = upsertAll (recs.map (fun r => schedUpsertDict r syncedAt)) t0 := by
  rw [upsertAll, List.foldlM_map]

lemma sync_res_eq_provRes (ps : List (ProviderM α)) (name syncedAt : String)
    (st : Store α) (p : ProviderM α)
    (hf : ps.find? (fun q => q.name == name) = some p) :
    (sync_provider ps name syncedAt st).2 = provRes syncedAt p := by
  rw [sync_provider, hf, provRes]
  cases hc : p.configured with
  | false => simp [hc]
  | true =>
    simp only [hc, Bool.not_true, Bool.false_eq_true, if_false]
    cases hfe : p.fetch with
    | error e => rfl
    | ok recs =>
      simp only [persistRecords]
      rw [foldlM_as_upsertAll recs syncedAt st.usage,
        foldlM_as_upsertAll recs syncedAt ([] : UsageTable α)]
      cases hfold : upsertAll (recs.map (fun r => schedUpsertDict r syncedAt)) st.usage with
      | error e =>
        rw [upsertAll_err_indep _ st.usage ([] : UsageTable α) e hfold]
      | ok t2 =>
        have hall := (upsertAll_ok_elim _ st.usage t2 hfold).1
        rw [upsertAll_complete_ok _ ([] : UsageTable α) hall]

lemma find?_name_self :
    ∀ (ps : List (ProviderM α)), ((ps.map ProviderM.name).Nodup) →
      ∀ q ∈ ps, ps.find? (fun p => p.name == q.name) = some q
  | [], _, q, hq => absurd hq (List.not_mem_nil q)
  | a :: ps, hnd, q, hq => by
    rw [List.map_cons] at hnd
    rcases List.mem_cons.mp hq with h | h
    · subst h
      rw [List.find?_cons_of_pos _ (by simp)]
    · have hna : a.name ∉ ps.map ProviderM.name := (List.nodup_cons.mp hnd).1
      have hne : a.name ≠ q.name := fun he => hna (he ▸ List.mem_map_of_mem ProviderM.name h)
      rw [List.find?_cons_of_neg _ (by simp [hne])]
      exact find?_name_self ps (List.nodup_cons.mp hnd).2 q h

lemma syncAllGo_outcomes (ps : List (ProviderM α)) (syncedAt : String)
    (hnd : (ps.map ProviderM.name).Nodup)
    (hnr : ∀ q ∈ ps, syncResNotRaised (provRes syncedAt q) = true) :
    ∀ (l : List (ProviderM α)), (∀ q ∈ l, q ∈ ps) → ∀ st : Store α,
      (syncAllGo ps syncedAt st l).2 = l.map (fun q => (q.name, provRes syncedAt q))
  | [], _, st => by rw [syncAllGo]; rfl
  | q :: l, hsub, st => by
    have hq : q ∈ ps := hsub q (List.mem_cons_self q l)
    have hres := sync_res_eq_provRes ps q.name syncedAt st q (find?_name_self ps hnd q hq)
    have hnrq := hnr q hq
    rw [syncAllGo]
    cases hsp : sync_provider ps q.name syncedAt st with
    | mk st2 r =>
      rw [hsp] at hres
      simp only at hres
      subst hres
      have hrec := syncAllGo_outcomes ps syncedAt hnd hnr l
        (fun x hx => hsub x (List.mem_cons_of_mem q hx)) st2
      cases hgo : syncAllGo ps syncedAt st2 l with
      | mk st3 rs =>
        rw [hgo] at hrec
        simp only at hrec
        cases hr : provRes syncedAt q with
        | raised e =>
          rw [hr] at hnrq
          exact absurd hnrq (by simp [syncResNotRaised])
        | statusMsg s m => simp [hgo, hrec, hr]
        | okRes n => simp [hgo, hrec, hr]

lemma sync_provider_log_mono (ps : List (ProviderM α)) (name syncedAt : String)
    (st : Store α) :
    ∃ d, ((sync_provider ps name syncedAt st).1).syncLog = st.syncLog ++ d := by
  rw [sync_provider]
  cases hf : ps.find? (fun p => p.name == name) with
  | none => exact ⟨[], by simp⟩
  | some p =>
    cases hc : p.configured with
    | false => exact ⟨[], by simp [hc]⟩
    | true =>
      simp only [hc, Bool.not_true, Bool.false_eq_true, if_false]
      cases hfe : p.fetch with
      | error e => exact ⟨_, rfl⟩
      | ok recs =>
        simp only [persistRecords]
        cases recs.foldlM
            (fun t r => upsert_usage_record (schedUpsertDict r syncedAt) t)
            st.usage with
        | error e => exact ⟨[], by simp⟩
        | ok t2 => exact ⟨_, rfl⟩

lemma syncAllGo_log_mono (ps : List (ProviderM α)) (syncedAt : String) :
    ∀ (l : List (ProviderM α)) (st : Store α),
      ∃ d, ((syncAllGo ps syncedAt st l).1).syncLog = st.syncLog ++ d
  | [], st => ⟨[], by rw [syncAllGo]; simp⟩
  | q :: l, st => by
    rw [syncAllGo]
    obtain ⟨d1, hd1⟩ := sync_provider_log_mono ps q.name syncedAt st
    cases hsp : sync_provider ps q.name syncedAt st with
    | mk st2 r =>
      rw [hsp] at hd1
      simp only at hd1
      cases r with
      | raised e => exact ⟨d1, hd1⟩
      | statusMsg s m =>
        obtain ⟨d2, hd2⟩ := syncAllGo_log_mono ps syncedAt l st2
        cases hgo : syncAllGo ps syncedAt st2 l with
        | mk st3 rs =>
          rw [hgo] at hd2
          refine ⟨d1 ++ d2, ?_⟩
          simp only [hgo]
          rw [hd2, hd1, List.append_assoc]
      | okRes n =>
        obtain ⟨d2, hd2⟩ := syncAllGo_log_mono ps syncedAt l st2
        cases hgo : syncAllGo ps syncedAt st2 l with
        | mk st3 rs =>
          rw [hgo] at hd2
          refine ⟨d1 ++ d2, ?_⟩
          simp only [hgo]
          rw [hd2, hd1, List.append_assoc]

lemma syncAllGo_err_row (ps : List (ProviderM α)) (syncedAt : String)
    (hnd : (ps.map ProviderM.name).Nodup)
    (hnr : ∀ q ∈ ps, syncResNotRaised (provRes syncedAt q) = true)
    (p : ProviderM α) (e : PyErr)
    (hp : p ∈ ps) (hc : p.configured = true) (hfe : p.fetch = .error e) :
    ∀ (l : List (ProviderM α)), (∀ q ∈ l, q ∈ ps) → p ∈ l → ∀ st : Store α,
      (⟨p.name, "error", pyStrTake (pyStr e) 500, syncedAt⟩ : SyncLogRow)
        ∈ ((syncAllGo ps syncedAt st l).1).syncLog
  | [], _, hpl, st => absurd hpl (List.not_mem_nil p)
  | q :: l, hsub, hpl, st => by
    rw [syncAllGo]
    rcases List.mem_cons.mp hpl with hqp | hpl2
    · subst hqp
      have hsp := sync_error_case ps p.name syncedAt st p e
        (find?_name_self ps hnd p hp) hc hfe
      cases hsp2 : sync_provider ps p.name syncedAt st with
      | mk st2 r =>
        rw [hsp2] at hsp
        injection hsp with h1 h2
        subst h2
        obtain ⟨d2, hd2⟩ := syncAllGo_log_mono ps syncedAt l st2
        cases hgo : syncAllGo ps syncedAt st2 l with
        | mk st3 rs =>
          rw [hgo] at hd2
          simp only [hgo]
          rw [hd2, h1]
          simp
    · have hq : q ∈ ps := hsub q (List.mem_cons_self q l)
      have hres := sync_res_eq_provRes ps q.name syncedAt st q (find?_name_self ps hnd q hq)
      have hnrq := hnr q hq
      cases hsp : sync_provider ps q.name syncedAt st with
      | mk st2 r =>
        rw [hsp] at hres
        simp only at hres
        subst hres
        have hrec := syncAllGo_err_row ps syncedAt hnd hnr p e hp hc hfe l
          (fun x hx => hsub x (List.mem_cons_of_mem q hx)) hpl2 st2
        cases hr : provRes syncedAt q with
        | raised e2 =>
          rw [hr] at hnrq
          exact absurd hnrq (by simp [syncResNotRaised])
        | statusMsg s m =>
          cases hgo : syncAllGo ps syncedAt st2 l with
          | mk st3 rs =>
            rw [hgo] at hrec
            simpa [hgo] using hrec
        | okRes n =>
          cases hgo : syncAllGo ps syncedAt st2 l with
          | mk st3 rs =>
            rw [hgo] at hrec
            simpa [hgo] using hrec

/-- Claim C5: one provider's fetch failure is isolated.  In a `sync_all` pass
over uniquely-named providers none of whose outcomes is an uncaught
exception, every provider's outcome is a function of that provider alone
(`provRes`), so a failing fetch neither propagates nor alters any sibling's
outcome; the failing provider itself yields an "error" status dict and its
truncated exception message is a row of the final sync log. -/
theorem c5_fetch_failure_isolated (ps : List (ProviderM α)) (syncedAt : String)
    (st : Store α)
    (hnd : (ps.map ProviderM.name).Nodup)
    (hnr : ∀ q ∈ ps, syncResNotRaised (provRes syncedAt q) = true) :
    (sync_all ps syncedAt st).2 = ps.map (fun q => (q.name, provRes syncedAt q)) ∧
    (∀ p ∈ ps, p.configured = true → ∀ e, p.fetch = .error e →
      provRes syncedAt p
          = .statusMsg "error" (p.displayName ++ ": fetch failed — " ++ pyStr e) ∧
      (⟨p.name, "error", pyStrTake (pyStr e) 500, syncedAt⟩ : SyncLogRow)
        ∈ ((sync_all ps syncedAt st).1).syncLog) := by
  rw [sync_all]
  refine ⟨syncAllGo_outcomes ps syncedAt hnd hnr ps (fun q hq => hq) st, ?_⟩
  intro p hp hc e hfe
  constructor
  · rw [provRes]
    simp only [hc, Bool.not_true, Bool.false_eq_true, if_false, hfe]
  · exact syncAllGo_err_row ps syncedAt hnd hnr p e hp hc hfe ps (fun q hq => hq) hp st

/-- Concrete instance of C5: in a full pass over the real registry with one
matching line per provider, the outcomes are exactly the per-provider
`provRes` list — so the moonshot failure blocks nobody — and the truncated
`KeyError` text is logged. -/
theorem c5_witness :
    (sync_all (allProviders envAll isoUtcParse nowFeb18 triFiles none none) "T"
        emptyStore).2
      = (allProviders envAll isoUtcParse nowFeb18 triFiles none none).map
          (fun q => (q.name, provRes "T" q)) ∧
    (⟨"moonshot", "error", "'total_tokens'", "T"⟩ : SyncLogRow)
      ∈ ((sync_all (allProviders envAll isoUtcParse nowFeb18 triFiles none none) "T"
          emptyStore).1).syncLog := by
  have h := c5_fetch_failure_isolated
    (allProviders envAll isoUtcParse nowFeb18 triFiles none none) "T" emptyStore
    (by decide) (by decide)
  refine ⟨h.1, ?_⟩
  have h2 := (h.2 ⟨"moonshot", "Moonshot / Kimi",
      envTruthy envAll "MOONSHOT_API_KEY",
      moonshotFetch envAll isoUtcParse nowFeb18 triFiles none none⟩
    (by decide) (by decide) (.keyError "total_tokens") (by decide)).2
  have h3 : pyStrTake (pyStr (PyErr.keyError "total_tokens")) 500
      = "'total_tokens'" := by decide
  rw [h3] at h2
  exact h2
